import Mathlib

/-!
Verification of the date-keyed download-tracking ledger of the nse_server
repository.  The definitions below are a shallow embedding of the Python
source: cells of the openpyxl worksheet are modelled as `Option String`
(`none` models an empty cell / JSON null), a worksheet is its header row
plus the list of data rows, and the Flask handlers of `main.py` become
pure functions on that state.
-/

namespace NseServer

/-- A worksheet cell: `none` is an empty cell (openpyxl `None`). -/
abbrev Cell := Option String

/-- Python `str(x)` applied to a cell value: `str(None) = "None"`. -/
def pyStr (c : Cell) : String :=
  match c with
  | none => "None"
  | some s => s

/-- Python truthiness of a cell value: `None` and `""` are falsy. -/
def pyTruthy (c : Cell) : Bool :=
  match c with
  | none => false
  | some s => s ≠ ""

/-- Python `s.isdigit()` (restricted to ASCII strings, which is all the
repository ever passes): true iff `s` is nonempty and all characters are
digits. -/
def pyIsdigit (s : String) : Bool :=
  s ≠ "" && s.toList.all Char.isDigit

/-- The header row written by `create_track_date` in `main.py`:
`['date'] + [f'file_{i}' for i in range(1, 12)]`. -/
def trackingHeaders : List String :=
  "date" :: (List.range' 1 11).map (fun i => "file_" ++ toString i)

/-- The eleven slot column names `file_1 .. file_11`. -/
def fileSlots : List String :=
  (List.range' 1 11).map (fun i => "file_" ++ toString i)

/-- The dict comprehension building `header_map` from the header names in
`manage_tracking_by_date`, as a lookup: the (0-based) column index of a
header name.  A Python dict comprehension lets a later duplicate key win,
hence the last matching index. -/
def headerIndex (headers : List String) (key : String) : Option Nat :=
  (headers.enum.filterMap
    (fun p => if p.2 = key then some p.1 else none)).getLast?

/-- Read cell `i` of a row; openpyxl yields `None` for cells that were
never written, which covers positions beyond the stored row. -/
def getCell (row : List Cell) (i : Nat) : Cell :=
  row.getD i none

/-- Writing one worksheet cell, `ws.cell(row=r, column=i, value=v)`:
write cell `i` of a row,
padding never-written cells with `None`. -/
def setCell : List Cell → Nat → Cell → List Cell
  | [], 0, v => [v]
  | [], n + 1, v => none :: setCell [] n v
  | _ :: t, 0, v => v :: t
  | h :: t, n + 1, v => h :: setCell t n v

/-- A worksheet: the header row and the data rows (rows 2..). -/
structure Ws where
  headers : List String
  rows : List (List Cell)
  deriving DecidableEq, Repr

/-- The row dict `dict(zip(headers, row)).get(key)` as served by the tracking
endpoints (openpyxl pads each yielded row to the sheet width, so every
header name is a key of that dict): `none` when the key names no header
column. -/
def rowDict (headers : List String) (row : List Cell) (key : String) :
    Option Cell :=
  (headerIndex headers key).map (getCell row)

/-- The date string `str(row_data.get('date', ''))` from the row-search loop of
`manage_tracking_by_date`. -/
def rowDateStr (headers : List String) (row : List Cell) : String :=
  match rowDict headers row "date" with
  | none => ""
  | some c => pyStr c

/-- The row-search loop of `manage_tracking_by_date`: index of the first
data row whose date string equals `date`. -/
def findRowIdx (headers : List String) (date : String) :
    List (List Cell) → Option Nat
  | [] => none
  | r :: rs =>
      if rowDateStr headers r = date then some 0
      else (findRowIdx headers date rs).map (· + 1)

/-- Outcome of a POST to `/api/<year>/tracking/<date>`. -/
inductive PostResult where
  | badRequest
  | updated (changes : Nat)
  | created
  deriving DecidableEq, Repr

/-- The per-key update loop shared by both POST branches of
`manage_tracking_by_date`: each payload key that names a header column
overwrites that cell and bumps `changes_made`; unknown keys are
skipped. -/
def applyUpdates (headers : List String) :
    List Cell → Nat → List (String × Cell) → List Cell × Nat
  | row, n, [] => (row, n)
  | row, n, kv :: rest =>
      match headerIndex headers kv.1 with
      | some c => applyUpdates headers (setCell row c kv.2) (n + 1) rest
      | none => applyUpdates headers row n rest

/-- The POST branch of `manage_tracking_by_date` in `main.py`
(`UpdateStatus`): reject an empty payload; if a row with this date
exists, overwrite the named cells in place; otherwise append a new row
whose date cell is the URL date and then fill it from the payload. -/
def manageTrackingPost (ws : Ws) (date : String)
    (updates : List (String × Cell)) : Ws × PostResult :=
  if updates.isEmpty then (ws, .badRequest)
  else
    match findRowIdx ws.headers date ws.rows with
    | some i =>
        let r := applyUpdates ws.headers (ws.rows.getD i []) 0 updates
        ({ ws with rows := ws.rows.set i r.1 }, .updated r.2)
    | none =>
        let base : List Cell :=
          match headerIndex ws.headers "date" with
          | some c => setCell [] c (some date)
          | none => []
        let r := applyUpdates ws.headers base 0 updates
        ({ ws with rows := ws.rows ++ [r.1] }, .created)

/-- The GET branch of `manage_tracking_by_date` (`GetStatus`): the found
row, or `none` (HTTP 404) when no row has this date. -/
def getStatusRow (ws : Ws) (date : String) : Option (List Cell) :=
  (findRowIdx ws.headers date ws.rows).map (fun i => ws.rows.getD i [])

/-- Lookup `files_status.get(file_key)` as a driver sees it: the cell value for
`key` in the served row dict, with a missing key flattened to `None`. -/
def fsGet (headers : List String) (row : List Cell) (key : String) : Cell :=
  (rowDict headers row key).join

/-- The cell a given slot holds for a given date, `none` when the date
has no row or the slot names no column. -/
def readSlot (ws : Ws) (date : String) (slot : String) : Cell :=
  match getStatusRow ws date with
  | some row => fsGet ws.headers row slot
  | none => none

/-!  The reconciliation drivers. -/

/-- Python f-string interpolation `f"{x}"` of a downloader result:
`None` renders as the string `"None"`. -/
def pyFormat (o : Option String) : String :=
  match o with
  | none => "None"
  | some s => s

/-- The slot keys of the `download_tasks` table in
`NSEDataDownloader.process_date`. -/
def downloadTaskKeys : List String :=
  ["file_1", "file_2", "file_3", "file_4", "file_5"]

/-- Observable trace of one `process_date` run: the resulting ledger,
the slots whose downloader was invoked, and the tracking updates that
were posted. -/
structure DriverLog where
  ws : Ws
  calls : List String
  posted : List (String × String)
  deriving Repr

/-- Lookup `files_status.get(file_key)` in the snapshot row dict
fetched at the start of a `process_date` run; an absent row (404 on the
GET) behaves as the empty dict. -/
def snapGet (headers0 : List String) (snap : Option (List Cell))
    (key : String) : Cell :=
  match snap with
  | some row => fsGet headers0 row key
  | none => none

/-- One iteration of the `for file_key, ... in download_tasks` loop of
`NSEDataDownloader.process_date`: `snap` is the row dict fetched once at
the start of the run (`files_status`), `dl key` the downloader for this
slot and date.  A truthy snapshot value skips the slot; otherwise the
downloader runs and only a truthy result (`if file_data:`) is posted
back, as `str(file_data)`. -/
def processDateStep (headers0 : List String) (snap : Option (List Cell))
    (date : String) (dl : String → Option String) (st : DriverLog)
    (key : String) : DriverLog :=
  let current : Cell := snapGet headers0 snap key
  if pyTruthy current then st
  else
    let st1 : DriverLog := { st with calls := st.calls ++ [key] }
    match dl key with
    | some s =>
        if s = "" then st1
        else
          { ws := (manageTrackingPost st1.ws date [(key, some s)]).1
            calls := st1.calls
            posted := st1.posted ++ [(key, s)] }
    | none => st1

/-- The driver loop `NSEDataDownloader.process_date` from `data_downloader.py`: fetch
the tracking row once, then walk the five download tasks in order. -/
def processDate (ws : Ws) (date : String) (dl : String → Option String) :
    DriverLog :=
  let snap := getStatusRow ws date
  downloadTaskKeys.foldl (processDateStep ws.headers snap date dl)
    ⟨ws, [], []⟩

/-- The per-date body of the `file_1` / `file_2` loops in the
`__main__` block of `download_main.py` (the least-robust driver): a GET
of the tracking row; on a 200 with a truthy slot value the date passes;
otherwise (empty slot, or 404 for a missing row) the downloader runs
and `{slot: f"{file_data}"}` is posted back unconditionally — even a
`None` download result is stringified and written.  Returns the new
ledger and the value posted, if any. -/
def downloadMainSlotStep (ws : Ws) (slot date : String)
    (dl : Option String) : Ws × Option String :=
  match getStatusRow ws date with
  | some row =>
      if pyTruthy (fsGet ws.headers row slot) then (ws, none)
      else
        let v := pyFormat dl
        ((manageTrackingPost ws date [(slot, some v)]).1, some v)
  | none =>
      let v := pyFormat dl
      ((manageTrackingPost ws date [(slot, some v)]).1, some v)

/-!  Year-folder and ledger creation (`create_year_folder` and
`create_track_date` in `main.py`). -/

/-- Filesystem state the two creation endpoints touch: whether the
year's folder exists, and the tracking workbook, if any. -/
structure YearState where
  folderExists : Bool
  ledger : Option Ws
  deriving DecidableEq, Repr

/-- HTTP outcomes of the creation endpoints. -/
inductive CreateResult where
  | invalidYear
  | created
  | alreadyExists
  deriving DecidableEq, Repr

/-- The handler `create_year_folder` in `main.py`: reject a non-digit year string
(`year.isdigit()` is the only validation), otherwise create the year
folder if missing. -/
def createYearFolder (year : String) (st : YearState) :
    YearState × CreateResult :=
  if !pyIsdigit year then (st, .invalidYear)
  else if !st.folderExists then ({ st with folderExists := true }, .created)
  else (st, .alreadyExists)

/-- The handler `create_track_date` in `main.py`: reject a non-digit year string;
ensure the year folder exists; then create the tracking workbook with
header row `date, file_1 .. file_11` if it is missing, and leave it
untouched otherwise. -/
def createTrackDate (year : String) (st : YearState) :
    YearState × CreateResult :=
  if !pyIsdigit year then (st, .invalidYear)
  else
    match st.ledger with
    | none =>
        (⟨true, some ⟨trackingHeaders, []⟩⟩, .created)
    | some l => (⟨true, some l⟩, .alreadyExists)

/-!  The trading-calendar generator (`get_year_dates` in `main.py`).

Python `datetime.date` objects always hold a valid proleptic-Gregorian
calendar date; comparison is lexicographic on `(year, month, day)` and
`+ timedelta(days=1)` is the day successor.  The while loop of
`get_year_dates` is modelled with that successor and a fuel equal to
the ordinal distance of the two endpoints, which the adequacy lemmas
below show runs the loop to completion exactly as the source does. -/

/-- A calendar date `(year, month, day)`. -/
structure Date where
  year : Nat
  month : Nat
  day : Nat
  deriving DecidableEq, Repr

/-- Gregorian leap year. -/
def isLeap (y : Nat) : Bool :=
  y % 4 == 0 && (y % 100 != 0 || y % 400 == 0)

/-- Number of days in a month. -/
def daysInMonth (y m : Nat) : Nat :=
  match m with
  | 1 => 31
  | 2 => if isLeap y then 29 else 28
  | 3 => 31
  | 4 => 30
  | 5 => 31
  | 6 => 30
  | 7 => 31
  | 8 => 31
  | 9 => 30
  | 10 => 31
  | 11 => 30
  | 12 => 31
  | _ => 0

/-- Days in the year strictly before month `m` (`leap` for the year). -/
def daysBeforeMonth (leap : Bool) (m : Nat) : Nat :=
  let l : Nat := if leap then 1 else 0
  match m with
  | 1 => 0
  | 2 => 31
  | 3 => 59 + l
  | 4 => 90 + l
  | 5 => 120 + l
  | 6 => 151 + l
  | 7 => 181 + l
  | 8 => 212 + l
  | 9 => 243 + l
  | 10 => 273 + l
  | 11 => 304 + l
  | 12 => 334 + l
  | _ => 366

/-- Days before January 1 of year `y` (proleptic Gregorian, matching
CPython's `_days_before_year`). -/
def daysBeforeYear (y : Nat) : Nat :=
  let n := y - 1
  365 * n + n / 4 + n / 400 - n / 100

/-- Python `date.toordinal()`: day number with 0001-01-01 as day 1. -/
def toOrdinal (d : Date) : Nat :=
  daysBeforeYear d.year + daysBeforeMonth (isLeap d.year) d.month + d.day

/-- The `(year, month, day)` triples that `datetime.date` admits
(`year` unbounded above; the source never exceeds 9999). -/
def validDate (d : Date) : Prop :=
  1 ≤ d.year ∧ 1 ≤ d.month ∧ d.month ≤ 12 ∧ 1 ≤ d.day ∧
    d.day ≤ daysInMonth d.year d.month

instance (d : Date) : Decidable (validDate d) := by
  unfold validDate; infer_instance

/-- Day successor, `d + timedelta(days=1)` on valid dates. -/
def nextDate (d : Date) : Date :=
  if d.day < daysInMonth d.year d.month then ⟨d.year, d.month, d.day + 1⟩
  else if d.month < 12 then ⟨d.year, d.month + 1, 1⟩
  else ⟨d.year + 1, 1, 1⟩

/-- Day predecessor, `d - timedelta(days=1)` on valid dates (the `yesterday` of
`get_year_dates`). -/
def prevDate (d : Date) : Date :=
  if 1 < d.day then ⟨d.year, d.month, d.day - 1⟩
  else if 1 < d.month then
    ⟨d.year, d.month - 1, daysInMonth d.year (d.month - 1)⟩
  else ⟨d.year - 1, 12, 31⟩

/-- Python date comparison: lexicographic on `(year, month, day)`. -/
def dateLe (a b : Date) : Bool :=
  decide (a.year < b.year ∨ (a.year = b.year ∧
    (a.month < b.month ∨ (a.month = b.month ∧ a.day ≤ b.day))))

/-- Decimal rendering padded to 2 digits (`strftime` `%m`, `%d`). -/
def pad2 (n : Nat) : String :=
  if n < 10 then "0" ++ toString n else toString n

/-- Decimal rendering padded to 4 digits (`strftime` `%Y`). -/
def pad4 (n : Nat) : String :=
  if n < 10 then "000" ++ toString n
  else if n < 100 then "00" ++ toString n
  else if n < 1000 then "0" ++ toString n
  else toString n

/-- Formatting `d.strftime("%Y-%m-%d")`. -/
def strftime (d : Date) : String :=
  pad4 d.year ++ "-" ++ pad2 d.month ++ "-" ++ pad2 d.day

/-- The `while current_date <= end_date` loop of `get_year_dates`,
with explicit fuel (one unit per appended day). -/
def dateList (endD : Date) : Nat → Date → List String
  | 0, _ => []
  | fuel + 1, cur =>
      if dateLe cur endD then strftime cur :: dateList endD fuel (nextDate cur)
      else []

/-- Response of `/api/download/<int:year>`. -/
structure YearDatesResp where
  rangeStart : String
  rangeEnd : String
  dates : List String
  deriving DecidableEq, Repr

/-- The handler `get_year_dates` in `main.py`: `start = date(year-1, 10, 1)`;
`end = today - 1 day` when `year` is the current year, else
`date(year, 12, 31)`; dates are every day from start to end inclusive,
formatted `%Y-%m-%d`. -/
def getYearDates (today : Date) (year : Nat) : YearDatesResp :=
  let startD : Date := ⟨year - 1, 10, 1⟩
  let endD : Date :=
    if year = today.year then prevDate today else ⟨year, 12, 31⟩
  { rangeStart := strftime startD
    rangeEnd := strftime endD
    dates := dateList endD (toOrdinal endD + 1 - toOrdinal startD) startD }

/-!  ## Basic lemmas about cells, the header map and the row search -/

theorem getCell_setCell_self (r : List Cell) (i : Nat) (v : Cell) :
    getCell (setCell r i v) i = v := by
  induction i generalizing r with
  | zero => cases r <;> simp [setCell, getCell]
  | succ n ih =>
      cases r with
      | nil => simpa [setCell, getCell, List.getD] using ih []
      | cons h t => simpa [setCell, getCell, List.getD] using ih t

theorem getCell_setCell_ne (r : List Cell) {i j : Nat} (v : Cell)
    (hij : i ≠ j) : getCell (setCell r i v) j = getCell r j := by
  induction i generalizing r j with
  | zero =>
      cases j with
      | zero => exact absurd rfl hij
      | succ m => cases r <;> simp [setCell, getCell, List.getD]
  | succ n ih =>
      cases j with
      | zero => cases r <;> simp [setCell, getCell, List.getD]
      | succ m =>
          have hnm : n ≠ m := by omega
          cases r with
          | nil => simpa [setCell, getCell, List.getD] using ih [] hnm
          | cons h t => simpa [setCell, getCell, List.getD] using ih t hnm

theorem setCell_setCell_self (r : List Cell) (i : Nat) (v w : Cell) :
    setCell (setCell r i v) i w = setCell r i w := by
  induction i generalizing r with
  | zero => cases r <;> simp [setCell]
  | succ n ih => cases r <;> simp [setCell, ih]

theorem headerIndex_getElem {headers : List String} {key : String}
    {c : Nat} (h : headerIndex headers key = some c) :
    headers[c]? = some key := by
  unfold headerIndex at h
  have hc := List.mem_of_mem_getLast? h
  obtain ⟨⟨i, x⟩, hp, he⟩ := List.mem_filterMap.1 hc
  by_cases hkey : x = key
  · simp [hkey] at he
    subst he
    have hx := List.mk_mem_enum_iff_getElem?.1 hp
    rw [hx, hkey]
  · simp [hkey] at he

theorem headerIndex_inj {headers : List String} {a b : String}
    {ca cb : Nat} (hab : a ≠ b) (ha : headerIndex headers a = some ca)
    (hb : headerIndex headers b = some cb) : ca ≠ cb := by
  intro hcc
  have h1 := headerIndex_getElem ha
  have h2 := headerIndex_getElem hb
  rw [hcc, h2] at h1
  exact hab (Option.some.inj h1).symm

theorem hdrIdx_date : headerIndex trackingHeaders "date" = some 0 := by
  decide

theorem fileSlots_facts : ∀ k ∈ fileSlots, k ≠ "date" ∧
    (headerIndex trackingHeaders k).isSome = true := by decide

theorem headerIndex_ne_zero {k : String} (hk : k ≠ "date") :
    headerIndex trackingHeaders k ≠ some 0 := by
  intro h
  have := headerIndex_getElem h
  simp [trackingHeaders] at this
  exact hk this.symm

theorem rowDateStr_tracking (row : List Cell) :
    rowDateStr trackingHeaders row = pyStr (getCell row 0) := by
  simp [rowDateStr, rowDict, hdrIdx_date]

theorem findRowIdx_lt {headers : List String} {date : String} :
    ∀ {rows : List (List Cell)} {i : Nat},
      findRowIdx headers date rows = some i → i < rows.length := by
  intro rows
  induction rows with
  | nil => intro i h; simp [findRowIdx] at h
  | cons r rs ih =>
      intro i h
      by_cases hr : rowDateStr headers r = date
      · simp [findRowIdx, hr] at h
        subst h
        simp
      · simp only [findRowIdx, if_neg hr, Option.map_eq_some'] at h
        obtain ⟨j, hj, rfl⟩ := h
        have := ih hj
        simp only [List.length_cons]
        omega

theorem findRowIdx_getD {headers : List String} {date : String} :
    ∀ {rows : List (List Cell)} {i : Nat},
      findRowIdx headers date rows = some i →
      rowDateStr headers (rows.getD i []) = date := by
  intro rows
  induction rows with
  | nil => intro i h; simp [findRowIdx] at h
  | cons r rs ih =>
      intro i h
      by_cases hr : rowDateStr headers r = date
      · simp [findRowIdx, hr] at h
        subst h
        simpa using hr
      · simp only [findRowIdx, if_neg hr, Option.map_eq_some'] at h
        obtain ⟨j, hj, rfl⟩ := h
        simpa [List.getD] using ih hj

theorem findRowIdx_none {headers : List String} {date : String} :
    ∀ {rows : List (List Cell)},
      findRowIdx headers date rows = none →
      ∀ r ∈ rows, rowDateStr headers r ≠ date := by
  intro rows
  induction rows with
  | nil => intro _ r hr; simp at hr
  | cons r rs ih =>
      intro h q hq
      by_cases hr : rowDateStr headers r = date
      · simp [findRowIdx, hr] at h
      · simp only [findRowIdx, if_neg hr, Option.map_eq_none'] at h
        rcases List.mem_cons.1 hq with rfl | hq2
        · exact hr
        · exact ih h q hq2

theorem findRowIdx_set {headers : List String} {date : String}
    {r1 : List Cell} (hr1 : rowDateStr headers r1 = date) :
    ∀ {rows : List (List Cell)} {i : Nat},
      findRowIdx headers date rows = some i →
      findRowIdx headers date (rows.set i r1) = some i := by
  intro rows
  induction rows with
  | nil => intro i h; simp [findRowIdx] at h
  | cons r rs ih =>
      intro i h
      by_cases hr : rowDateStr headers r = date
      · simp [findRowIdx, hr] at h
        subst h
        simp [findRowIdx, hr1]
      · simp only [findRowIdx, if_neg hr, Option.map_eq_some'] at h
        obtain ⟨j, hj, rfl⟩ := h
        simp [List.set, findRowIdx, hr, ih hj]

theorem findRowIdx_append_none {headers : List String} {date : String}
    {r1 : List Cell} (hr1 : rowDateStr headers r1 = date) :
    ∀ {rows : List (List Cell)},
      findRowIdx headers date rows = none →
      findRowIdx headers date (rows ++ [r1]) = some rows.length := by
  intro rows
  induction rows with
  | nil => intro _; simp [findRowIdx, hr1]
  | cons r rs ih =>
      intro h
      by_cases hr : rowDateStr headers r = date
      · simp [findRowIdx, hr] at h
      · simp only [findRowIdx, if_neg hr, Option.map_eq_none'] at h
        simp [findRowIdx, hr, ih h]

theorem applyUpdates_frame {headers : List String} {c : Nat} :
    ∀ {updates : List (String × Cell)} {row : List Cell} {n : Nat},
      (∀ kv ∈ updates, headerIndex headers kv.1 ≠ some c) →
      getCell (applyUpdates headers row n updates).1 c = getCell row c := by
  intro updates
  induction updates with
  | nil => intro row n _; simp [applyUpdates]
  | cons kv rest ih =>
      intro row n h
      match hk : headerIndex headers kv.1 with
      | some c2 =>
          have hc2 : c2 ≠ c := fun hcc =>
            h kv (List.mem_cons_self kv rest) (hcc ▸ hk)
          simp only [applyUpdates, hk]
          rw [ih (fun q hq => h q (List.mem_cons_of_mem kv hq)),
            getCell_setCell_ne row kv.2 hc2]
      | none =>
          simp only [applyUpdates, hk]
          exact ih (fun q hq => h q (List.mem_cons_of_mem kv hq))

theorem applyUpdates_nop {headers : List String} :
    ∀ {updates : List (String × Cell)} {row : List Cell} {n : Nat},
      (∀ kv ∈ updates, headerIndex headers kv.1 = none) →
      applyUpdates headers row n updates = (row, n) := by
  intro updates
  induction updates with
  | nil => intro row n _; simp [applyUpdates]
  | cons kv rest ih =>
      intro row n h
      have hk := h kv (List.mem_cons_self kv rest)
      simp only [applyUpdates, hk]
      exact ih (fun q hq => h q (List.mem_cons_of_mem kv hq))

theorem set_getD_self {α : Type} (l : List α) (i : Nat) (d : α)
    (h : i < l.length) : l.set i (l.getD i d) = l := by
  apply List.ext_getElem?
  intro j
  by_cases hij : j = i
  · subst hij
    rw [List.getElem?_set_self (by simpa using h)]
    simp [List.getD, List.getElem?_eq_getElem h]
  · exact List.getElem?_set_ne (fun hh => hij hh.symm)

theorem set_getElem?_getD_self {α : Type} (l : List α) (i : Nat) (d : α)
    (h : i < l.length) : l.set i ((l[i]?).getD d) = l := by
  simpa [List.getD] using set_getD_self l i d h

theorem upsert_headers (ws : Ws) (date : String)
    (updates : List (String × Cell)) :
    (manageTrackingPost ws date updates).1.headers = ws.headers := by
  unfold manageTrackingPost
  split
  · rfl
  · split <;> rfl

/-- A single-key upsert is idempotent for any key other than `date`:
running the POST twice with the same payload leaves the worksheet in
the state after the first run. -/
theorem upsert_single_idem (rows : List (List Cell)) (date k : String)
    (v : Cell) (hk : k ≠ "date") :
    (manageTrackingPost
      (manageTrackingPost ⟨trackingHeaders, rows⟩ date [(k, v)]).1
      date [(k, v)]).1 =
    (manageTrackingPost ⟨trackingHeaders, rows⟩ date [(k, v)]).1 := by
  match hidx : headerIndex trackingHeaders k with
  | some c =>
    have hc0 : c ≠ 0 := by
      intro h
      exact headerIndex_ne_zero hk (h ▸ hidx)
    cases hfind : findRowIdx trackingHeaders date rows with
    | some i =>
        have hlt : i < rows.length := findRowIdx_lt hfind
        set r0 : List Cell := rows.getD i [] with hr0def
        set r1 : List Cell := setCell r0 c v with hr1def
        have hr1date : rowDateStr trackingHeaders r1 = date := by
          rw [rowDateStr_tracking, hr1def, getCell_setCell_ne r0 v hc0,
            ← rowDateStr_tracking, hr0def]
          exact findRowIdx_getD hfind
        have hws1 : (manageTrackingPost ⟨trackingHeaders, rows⟩ date
            [(k, v)]).1 = ⟨trackingHeaders, rows.set i r1⟩ := by
          simp [manageTrackingPost, hfind, applyUpdates, hidx, hr1def,
            hr0def]
        rw [hws1]
        have hfind2 : findRowIdx trackingHeaders date (rows.set i r1) =
            some i := findRowIdx_set hr1date hfind
        have hgd : (rows.set i r1).getD i [] = r1 := by
          simp [List.getD, List.getElem?_set_self (by simpa using hlt)]
        simp only [manageTrackingPost, List.isEmpty_cons, hfind2,
          Bool.false_eq_true, if_false]
        simp only [hgd, applyUpdates, hidx, hr1def,
          setCell_setCell_self r0 c v v]
        simp [List.set_set]
    | none =>
        set base : List Cell := [some date] with hbase
        set r1 : List Cell := setCell base c v with hr1def
        have hr1date : rowDateStr trackingHeaders r1 = date := by
          rw [rowDateStr_tracking, hr1def, getCell_setCell_ne base v hc0,
            hbase]
          rfl
        have hws1 : (manageTrackingPost ⟨trackingHeaders, rows⟩ date
            [(k, v)]).1 = ⟨trackingHeaders, rows ++ [r1]⟩ := by
          simp [manageTrackingPost, hfind, applyUpdates, hidx, hr1def,
            hdrIdx_date, hbase, setCell]
        rw [hws1]
        have hfind2 : findRowIdx trackingHeaders date (rows ++ [r1]) =
            some rows.length := findRowIdx_append_none hr1date hfind
        have hgd : (rows ++ [r1]).getD rows.length [] = r1 := by
          simp [List.getD, List.getElem?_concat_length]
        simp only [manageTrackingPost, List.isEmpty_cons, hfind2,
          Bool.false_eq_true, if_false]
        simp only [hgd, applyUpdates, hidx, hr1def,
          setCell_setCell_self base c v v]
        have hlen : rows.length < (rows ++ [r1]).length := by simp
        have hset : (rows ++ [r1]).set rows.length (setCell base c v) =
            rows ++ [r1] := by
          rw [← hr1def]
          calc (rows ++ [r1]).set rows.length r1
              = (rows ++ [r1]).set rows.length
                  ((rows ++ [r1]).getD rows.length []) := by rw [hgd]
            _ = rows ++ [r1] := set_getD_self _ _ _ hlen
        simp only [hset]
  | none =>
    have hnop : ∀ kv ∈ [(k, v)], headerIndex trackingHeaders kv.1 =
        none := by
      intro kv hkv
      rw [List.mem_singleton] at hkv
      subst hkv
      exact hidx
    cases hfind : findRowIdx trackingHeaders date rows with
    | some i =>
        have hlt : i < rows.length := findRowIdx_lt hfind
        have hws1 : (manageTrackingPost ⟨trackingHeaders, rows⟩ date
            [(k, v)]).1 = ⟨trackingHeaders, rows⟩ := by
          simp only [manageTrackingPost, List.isEmpty_cons,
            Bool.false_eq_true, if_false, hfind]
          simp [applyUpdates_nop hnop, set_getD_self rows i [] hlt,
            set_getElem?_getD_self rows i ([] : List Cell) hlt]
        rw [hws1, hws1]
    | none =>
        set base : List Cell := [some date] with hbase
        have hbdate : rowDateStr trackingHeaders base = date := by
          rw [rowDateStr_tracking, hbase]
          rfl
        have hws1 : (manageTrackingPost ⟨trackingHeaders, rows⟩ date
            [(k, v)]).1 = ⟨trackingHeaders, rows ++ [base]⟩ := by
          simp only [manageTrackingPost, List.isEmpty_cons,
            Bool.false_eq_true, if_false, hfind, hdrIdx_date]
          simp [applyUpdates_nop hnop, hbase, setCell]
        rw [hws1]
        have hfind2 : findRowIdx trackingHeaders date (rows ++ [base]) =
            some rows.length := findRowIdx_append_none hbdate hfind
        have hgd : (rows ++ [base]).getD rows.length [] = base := by
          simp [List.getD, List.getElem?_concat_length]
        simp only [manageTrackingPost, List.isEmpty_cons, hfind2,
          Bool.false_eq_true, if_false]
        simp only [hgd, applyUpdates_nop hnop]
        have hlen : rows.length < (rows ++ [base]).length := by simp
        have hset : (rows ++ [base]).set rows.length base =
            rows ++ [base] := by
          calc (rows ++ [base]).set rows.length base
              = (rows ++ [base]).set rows.length
                  ((rows ++ [base]).getD rows.length []) := by rw [hgd]
            _ = rows ++ [base] := set_getD_self _ _ _ hlen
        simp only [hset]

/-!  ## State characterization of a single-key upsert -/

theorem rowDateStr_setCell {c : Nat} (hc0 : c ≠ 0) (r : List Cell)
    (v : Cell) : rowDateStr trackingHeaders (setCell r c v) =
    rowDateStr trackingHeaders r := by
  rw [rowDateStr_tracking, rowDateStr_tracking, getCell_setCell_ne r v hc0]

theorem getD_set_self_at {α : Type} (l : List α) (i : Nat) (a d : α)
    (h : i < l.length) : (l.set i a).getD i d = a := by
  simp [List.getD, List.getElem?_set_self (by simpa using h)]

theorem getD_concat {α : Type} (l : List α) (a d : α) :
    (l ++ [a]).getD l.length d = a := by
  simp [List.getD, List.getElem?_concat_length]

theorem upsert_single_found {rows : List (List Cell)} {date k : String}
    {v : Cell} {c i : Nat}
    (hidx : headerIndex trackingHeaders k = some c)
    (hfind : findRowIdx trackingHeaders date rows = some i) :
    (manageTrackingPost ⟨trackingHeaders, rows⟩ date [(k, v)]).1 =
      ⟨trackingHeaders, rows.set i (setCell (rows.getD i []) c v)⟩ := by
  simp [manageTrackingPost, hfind, applyUpdates, hidx]

theorem upsert_single_missing {rows : List (List Cell)} {date k : String}
    {v : Cell} {c : Nat}
    (hidx : headerIndex trackingHeaders k = some c)
    (hfind : findRowIdx trackingHeaders date rows = none) :
    (manageTrackingPost ⟨trackingHeaders, rows⟩ date [(k, v)]).1 =
      ⟨trackingHeaders, rows ++ [setCell [some date] c v]⟩ := by
  simp [manageTrackingPost, hfind, applyUpdates, hidx, hdrIdx_date,
    setCell]

theorem upsert_allunknown_found {rows : List (List Cell)}
    {date : String} {updates : List (String × Cell)} {i : Nat}
    (hne : updates ≠ [])
    (hall : ∀ kv ∈ updates, headerIndex trackingHeaders kv.1 = none)
    (hfind : findRowIdx trackingHeaders date rows = some i) :
    manageTrackingPost ⟨trackingHeaders, rows⟩ date updates =
      (⟨trackingHeaders, rows⟩, .updated 0) := by
  have hlt : i < rows.length := findRowIdx_lt hfind
  have hemp : updates.isEmpty = false := by
    cases updates with
    | nil => exact absurd rfl hne
    | cons q qs => rfl
  simp only [manageTrackingPost, hemp, Bool.false_eq_true, if_false,
    hfind]
  simp [applyUpdates_nop hall, set_getD_self rows i [] hlt,
    set_getElem?_getD_self rows i ([] : List Cell) hlt]

theorem upsert_allunknown_missing {rows : List (List Cell)}
    {date : String} {updates : List (String × Cell)}
    (hne : updates ≠ [])
    (hall : ∀ kv ∈ updates, headerIndex trackingHeaders kv.1 = none)
    (hfind : findRowIdx trackingHeaders date rows = none) :
    manageTrackingPost ⟨trackingHeaders, rows⟩ date updates =
      (⟨trackingHeaders, rows ++ [[some date]]⟩, .created) := by
  have hemp : updates.isEmpty = false := by
    cases updates with
    | nil => exact absurd rfl hne
    | cons q qs => rfl
  simp only [manageTrackingPost, hemp, Bool.false_eq_true, if_false,
    hfind, hdrIdx_date]
  simp [applyUpdates_nop hall, setCell]

/-!  ## `readSlot` after a single-key upsert -/

theorem readSlot_of_find {rows : List (List Cell)} {date : String}
    {i : Nat} (slot : String)
    (hfind : findRowIdx trackingHeaders date rows = some i) :
    readSlot ⟨trackingHeaders, rows⟩ date slot =
      fsGet trackingHeaders (rows.getD i []) slot := by
  simp [readSlot, getStatusRow, hfind]

theorem readSlot_of_none {rows : List (List Cell)} {date : String}
    (slot : String)
    (hfind : findRowIdx trackingHeaders date rows = none) :
    readSlot ⟨trackingHeaders, rows⟩ date slot = none := by
  simp [readSlot, getStatusRow, hfind]

/-- After `UpdateStatus(date, {k: v})` the `k` slot of `date` holds
`v`, whether the row existed or was appended. -/
theorem upsert_readSlot_hit {rows : List (List Cell)} {date k : String}
    {v : Cell} {c : Nat} (hk : k ≠ "date")
    (hidx : headerIndex trackingHeaders k = some c) :
    readSlot (manageTrackingPost ⟨trackingHeaders, rows⟩ date
      [(k, v)]).1 date k = v := by
  have hc0 : c ≠ 0 := fun h => headerIndex_ne_zero hk (h ▸ hidx)
  cases hfind : findRowIdx trackingHeaders date rows with
  | some i =>
      have hlt : i < rows.length := findRowIdx_lt hfind
      rw [upsert_single_found hidx hfind]
      have hr1date : rowDateStr trackingHeaders
          (setCell (rows.getD i []) c v) = date := by
        rw [rowDateStr_setCell hc0]
        exact findRowIdx_getD hfind
      have hfind2 := findRowIdx_set hr1date hfind
      rw [readSlot_of_find k hfind2,
        getD_set_self_at _ _ _ _ (by simpa using hlt)]
      simp [fsGet, rowDict, hidx, getCell_setCell_self]
  | none =>
      rw [upsert_single_missing hidx hfind]
      have hr1date : rowDateStr trackingHeaders
          (setCell [some date] c v) = date := by
        rw [rowDateStr_setCell hc0, rowDateStr_tracking]
        rfl
      have hfind2 := findRowIdx_append_none hr1date hfind
      rw [readSlot_of_find k hfind2, getD_concat]
      simp [fsGet, rowDict, hidx, getCell_setCell_self]

/-- An `UpdateStatus(date, single slot)` call on an existing row leaves every other
column of that date unchanged. -/
theorem upsert_readSlot_frame_found {rows : List (List Cell)}
    {date k : String} {v : Cell} {i : Nat} (slot : String)
    (hfind : findRowIdx trackingHeaders date rows = some i)
    (hk : k ≠ "date") (hsk : slot ≠ k) :
    readSlot (manageTrackingPost ⟨trackingHeaders, rows⟩ date
      [(k, v)]).1 date slot =
    readSlot ⟨trackingHeaders, rows⟩ date slot := by
  cases hidx : headerIndex trackingHeaders k with
  | none =>
      have hall : ∀ kv ∈ [(k, v)], headerIndex trackingHeaders kv.1 =
          none := by
        intro kv hkv
        rw [List.mem_singleton] at hkv
        subst hkv
        exact hidx
      rw [congrArg Prod.fst
        (upsert_allunknown_found (by simp) hall hfind)]
  | some c =>
      have hc0 : c ≠ 0 := fun h => headerIndex_ne_zero hk (h ▸ hidx)
      have hlt : i < rows.length := findRowIdx_lt hfind
      rw [upsert_single_found hidx hfind]
      have hr1date : rowDateStr trackingHeaders
          (setCell (rows.getD i []) c v) = date := by
        rw [rowDateStr_setCell hc0]
        exact findRowIdx_getD hfind
      have hfind2 := findRowIdx_set hr1date hfind
      rw [readSlot_of_find slot hfind2,
        getD_set_self_at _ _ _ _ (by simpa using hlt),
        readSlot_of_find slot hfind]
      cases hslot : headerIndex trackingHeaders slot with
      | none => simp [fsGet, rowDict, hslot]
      | some cs =>
          have hcs : cs ≠ c := headerIndex_inj hsk hslot hidx
          simp [fsGet, rowDict, hslot,
            getCell_setCell_ne _ _ (fun h => hcs h.symm)]

/-- An `UpdateStatus(date, single slot)` call on a missing row appends a row whose
other slots are all empty. -/
theorem upsert_readSlot_frame_missing {rows : List (List Cell)}
    {date k : String} {v : Cell} (slot : String)
    (hfind : findRowIdx trackingHeaders date rows = none)
    (hk : k ≠ "date") (hsd : slot ≠ "date") (hsk : slot ≠ k) :
    readSlot (manageTrackingPost ⟨trackingHeaders, rows⟩ date
      [(k, v)]).1 date slot = none := by
  cases hidx : headerIndex trackingHeaders k with
  | none =>
      have hall : ∀ kv ∈ [(k, v)], headerIndex trackingHeaders kv.1 =
          none := by
        intro kv hkv
        rw [List.mem_singleton] at hkv
        subst hkv
        exact hidx
      rw [congrArg Prod.fst
        (upsert_allunknown_missing (by simp) hall hfind)]
      have hbdate : rowDateStr trackingHeaders
          ([some date] : List Cell) = date := by
        rw [rowDateStr_tracking]
        rfl
      have hfind2 := findRowIdx_append_none hbdate hfind
      rw [readSlot_of_find slot hfind2, getD_concat]
      cases hslot : headerIndex trackingHeaders slot with
      | none => simp [fsGet, rowDict, hslot]
      | some cs =>
          have hcs : cs ≠ 0 := fun h =>
            headerIndex_ne_zero hsd (h ▸ hslot)
          cases cs with
          | zero => exact absurd rfl hcs
          | succ m => simp [fsGet, rowDict, hslot, getCell, List.getD]
  | some c =>
      have hc0 : c ≠ 0 := fun h => headerIndex_ne_zero hk (h ▸ hidx)
      rw [upsert_single_missing hidx hfind]
      have hr1date : rowDateStr trackingHeaders
          (setCell [some date] c v) = date := by
        rw [rowDateStr_setCell hc0, rowDateStr_tracking]
        rfl
      have hfind2 := findRowIdx_append_none hr1date hfind
      rw [readSlot_of_find slot hfind2, getD_concat]
      cases hslot : headerIndex trackingHeaders slot with
      | none => simp [fsGet, rowDict, hslot]
      | some cs =>
          have hcsc : cs ≠ c := headerIndex_inj hsk hslot hidx
          have hcs0 : cs ≠ 0 := fun h =>
            headerIndex_ne_zero hsd (h ▸ hslot)
          rw [show fsGet trackingHeaders (setCell [some date] c v) slot =
            getCell (setCell [some date] c v) cs by
              simp [fsGet, rowDict, hslot]]
          rw [getCell_setCell_ne _ _ (fun h => hcsc h.symm)]
          cases cs with
          | zero => exact absurd rfl hcs0
          | succ m => simp [getCell, List.getD]

theorem getD_set_ne {α : Type} (l : List α) {i j : Nat} (a d : α)
    (h : i ≠ j) : (l.set i a).getD j d = l.getD j d := by
  simp [List.getD, List.getElem?_set_ne h]

theorem getD_append_left {α : Type} (l l2 : List α) {j : Nat} (d : α)
    (h : j < l.length) : (l ++ l2).getD j d = l.getD j d := by
  simp [List.getD, List.getElem?_append, h]

/-!  ## The claims -/

/-- C1.  Upsert is idempotent: for every ledger state, date and
single-slot payload `{slot: v}`, posting the same payload twice through
`manage_tracking_by_date` leaves the worksheet exactly as posting it
once. -/
theorem claim_C1_upsert_idempotent (rows : List (List Cell))
    (date slot : String) (v : Cell) (hs : slot ∈ fileSlots) :
    (manageTrackingPost
      (manageTrackingPost ⟨trackingHeaders, rows⟩ date [(slot, v)]).1
      date [(slot, v)]).1 =
    (manageTrackingPost ⟨trackingHeaders, rows⟩ date [(slot, v)]).1 :=
  upsert_single_idem rows date slot v (fileSlots_facts slot hs).1

/-- Witness for C1 at a concrete ledger and payload. -/
theorem claim_C1_witness :
    (manageTrackingPost
      (manageTrackingPost ⟨trackingHeaders, []⟩ "2026-01-02"
        [("file_1", some "a.csv")]).1
      "2026-01-02" [("file_1", some "a.csv")]).1 =
    (manageTrackingPost ⟨trackingHeaders, []⟩ "2026-01-02"
      [("file_1", some "a.csv")]).1 :=
  claim_C1_upsert_idempotent [] "2026-01-02" "file_1" (some "a.csv")
    (by decide)

/-- C2.  Partial update preserves other slots: on an existing row,
`UpdateStatus(date, {a: x'})` sets slot `a` to `x'` and leaves the value
of every other column of that row (and every column the payload does
not name) unchanged; the caller supplies no other slot. -/
theorem claim_C2_update_preserves_other_slots (rows : List (List Cell))
    (date a : String) (x' : Cell) (i : Nat) (ha : a ∈ fileSlots)
    (hfind : findRowIdx trackingHeaders date rows = some i) :
    readSlot (manageTrackingPost ⟨trackingHeaders, rows⟩ date
      [(a, x')]).1 date a = x' ∧
    ∀ b : String, b ≠ a →
      readSlot (manageTrackingPost ⟨trackingHeaders, rows⟩ date
        [(a, x')]).1 date b =
      readSlot ⟨trackingHeaders, rows⟩ date b := by
  have hane := (fileSlots_facts a ha).1
  have hsome := (fileSlots_facts a ha).2
  obtain ⟨c, hc⟩ := Option.isSome_iff_exists.1 hsome
  refine ⟨upsert_readSlot_hit hane hc, ?_⟩
  intro b hb
  exact upsert_readSlot_frame_found b hfind hane hb

/-- Witness for C2: a row `{file_1: x, file_2: y}` updated with
`{file_1: x2}` keeps `file_2 = y`. -/
theorem claim_C2_witness :
    readSlot (manageTrackingPost
      ⟨trackingHeaders, [[some "2026-01-02", some "x", some "y"]]⟩
      "2026-01-02" [("file_1", some "x2")]).1 "2026-01-02" "file_1" =
      some "x2" ∧
    readSlot (manageTrackingPost
      ⟨trackingHeaders, [[some "2026-01-02", some "x", some "y"]]⟩
      "2026-01-02" [("file_1", some "x2")]).1 "2026-01-02" "file_2" =
    readSlot ⟨trackingHeaders, [[some "2026-01-02", some "x", some "y"]]⟩
      "2026-01-02" "file_2" := by
  have h := claim_C2_update_preserves_other_slots
    [[some "2026-01-02", some "x", some "y"]] "2026-01-02" "file_1"
    (some "x2") 0 (by decide) (by decide)
  exact ⟨h.1, h.2 "file_2" (by decide)⟩

/-- C3, counterexample to the claim as stated: the store itself imposes
no monotonicity — an `UpdateStatus` call whose payload carries an empty
string overwrites a non-empty (`Filled`) slot with an empty value. -/
theorem claim_C3_counterexample :
    pyTruthy (readSlot
      ⟨trackingHeaders, [[some "2026-01-02", some "p.csv"]]⟩
      "2026-01-02" "file_1") = true ∧
    readSlot (manageTrackingPost
      ⟨trackingHeaders, [[some "2026-01-02", some "p.csv"]]⟩
      "2026-01-02" [("file_1", some "")]).1 "2026-01-02" "file_1" =
      some "" ∧
    pyTruthy (some "") = false := by decide

/-- C4, counterexample to the claim as stated: a payload that contains
a `date` key rewrites the date cell of an existing row — the update
loop of `manage_tracking_by_date` writes every payload key found in
`header_map`, and `date` is a header column. -/
theorem claim_C4_counterexample :
    rowDateStr trackingHeaders
      ([[some "2026-01-02", some "x"]].getD 0 []) = "2026-01-02" ∧
    rowDateStr trackingHeaders
      ((manageTrackingPost
        ⟨trackingHeaders, [[some "2026-01-02", some "x"]]⟩
        "2026-01-02" [("date", some "2099-09-09")]).1.rows.getD 0 []) =
      "2099-09-09" ∧
    ("2099-09-09" : String) ≠ "2026-01-02" := by decide

/-- C4, amended.  For every `UpdateStatus` call whose payload contains
no `date` key, the date cell of every pre-existing row is unchanged,
and date-uniqueness of the ledger is preserved (an appended row carries
the new date, which no existing row had). -/
theorem claim_C4_amended_date_immutable (rows : List (List Cell))
    (date : String) (updates : List (String × Cell))
    (hnd : ∀ kv ∈ updates, kv.1 ≠ "date") :
    (∀ j, j < rows.length →
      rowDateStr trackingHeaders
        ((manageTrackingPost ⟨trackingHeaders, rows⟩ date
          updates).1.rows.getD j []) =
      rowDateStr trackingHeaders (rows.getD j [])) ∧
    ((rows.map (rowDateStr trackingHeaders)).Nodup →
      ((manageTrackingPost ⟨trackingHeaders, rows⟩ date
        updates).1.rows.map (rowDateStr trackingHeaders)).Nodup) := by
  have hframe : ∀ row : List Cell,
      rowDateStr trackingHeaders
        (applyUpdates trackingHeaders row 0 updates).1 =
      rowDateStr trackingHeaders row := by
    intro row
    rw [rowDateStr_tracking, rowDateStr_tracking]
    rw [applyUpdates_frame]
    intro kv hkv
    exact headerIndex_ne_zero (hnd kv hkv)
  by_cases hemp : updates.isEmpty
  · simp [manageTrackingPost, hemp]
  · have hemp2 : updates.isEmpty = false := by
      simpa using hemp
    cases hfind : findRowIdx trackingHeaders date rows with
    | some i =>
        have hlt : i < rows.length := findRowIdx_lt hfind
        have hrows : (manageTrackingPost ⟨trackingHeaders, rows⟩ date
            updates).1.rows =
            rows.set i (applyUpdates trackingHeaders (rows.getD i [])
              0 updates).1 := by
          simp [manageTrackingPost, hemp2, hfind]
        rw [hrows]
        have hj : ∀ j, j < rows.length →
            rowDateStr trackingHeaders
              ((rows.set i (applyUpdates trackingHeaders
                (rows.getD i []) 0 updates).1).getD j []) =
            rowDateStr trackingHeaders (rows.getD j []) := by
          intro j hjlt
          by_cases hij : i = j
          · subst hij
            rw [getD_set_self_at _ _ _ _ hlt, hframe]
          · rw [getD_set_ne _ _ _ hij]
        refine ⟨hj, ?_⟩
        intro hnodup
        have hmapeq : (rows.set i (applyUpdates trackingHeaders
            (rows.getD i []) 0 updates).1).map
              (rowDateStr trackingHeaders) =
            rows.map (rowDateStr trackingHeaders) := by
          rw [List.map_set, hframe]
          have hget : rowDateStr trackingHeaders (rows.getD i []) =
              (rows.map (rowDateStr trackingHeaders)).getD i
                (rowDateStr trackingHeaders []) := by
            rw [List.getD_eq_getElem?_getD, List.getD_eq_getElem?_getD,
              List.getElem?_map]
            cases rows[i]? <;> simp
          rw [hget]
          exact set_getD_self _ _ _ (by simpa using hlt)
        rw [hmapeq]
        exact hnodup
    | none =>
        have hrows : (manageTrackingPost ⟨trackingHeaders, rows⟩ date
            updates).1.rows =
            rows ++ [(applyUpdates trackingHeaders [some date]
              0 updates).1] := by
          simp [manageTrackingPost, hemp2, hfind, hdrIdx_date, setCell]
        rw [hrows]
        have hr1date : rowDateStr trackingHeaders
            (applyUpdates trackingHeaders [some date] 0 updates).1 =
            date := by
          rw [hframe, rowDateStr_tracking]
          rfl
        constructor
        · intro j hjlt
          rw [getD_append_left _ _ _ hjlt]
        · intro hnodup
          rw [List.map_append]
          apply List.Nodup.append hnodup (by simp)
          intro x hx hx1
          rw [List.map_cons, List.map_nil, List.mem_singleton] at hx1
          obtain ⟨r, hr, hrx⟩ := List.mem_map.1 hx
          exact findRowIdx_none hfind r hr
            (hrx.trans (hx1.trans hr1date))

/-- Witness for the amended C4 at a concrete row and payload. -/
theorem claim_C4_amended_witness :
    rowDateStr trackingHeaders
      ((manageTrackingPost
        ⟨trackingHeaders, [[some "2026-01-02", some "x"]]⟩
        "2026-01-02" [("file_1", some "y")]).1.rows.getD 0 []) =
    rowDateStr trackingHeaders
      ([[some "2026-01-02", some "x"]].getD 0 []) :=
  (claim_C4_amended_date_immutable [[some "2026-01-02", some "x"]]
    "2026-01-02" [("file_1", some "y")] (by decide)).1 0 (by decide)

/-- C10.  Unknown payload keys are silently ignored: a nonempty payload
whose keys name no header column returns success and changes no
existing cell — on the update path the worksheet is bit-for-bit
unchanged (`Updated 0 fields`), and on the append path a new row
holding only the date is created. -/
theorem claim_C10_unknown_keys_ignored (rows : List (List Cell))
    (date : String) (updates : List (String × Cell))
    (hne : updates ≠ [])
    (hall : ∀ kv ∈ updates, headerIndex trackingHeaders kv.1 = none) :
    (∀ i, findRowIdx trackingHeaders date rows = some i →
      manageTrackingPost ⟨trackingHeaders, rows⟩ date updates =
        (⟨trackingHeaders, rows⟩, .updated 0)) ∧
    (findRowIdx trackingHeaders date rows = none →
      manageTrackingPost ⟨trackingHeaders, rows⟩ date updates =
        (⟨trackingHeaders, rows ++ [[some date]]⟩, .created)) :=
  ⟨fun _ hfind => upsert_allunknown_found hne hall hfind,
   fun hfind => upsert_allunknown_missing hne hall hfind⟩

/-- Witness for C10: an unknown-keys-only payload on an existing row
succeeds and leaves the worksheet unchanged. -/
theorem claim_C10_witness :
    manageTrackingPost ⟨trackingHeaders, [[some "2026-01-02", some "x"]]⟩
      "2026-01-02" [("bogus", some "z")] =
    (⟨trackingHeaders, [[some "2026-01-02", some "x"]]⟩,
      .updated 0) :=
  (claim_C10_unknown_keys_ignored [[some "2026-01-02", some "x"]]
    "2026-01-02" [("bogus", some "z")] (by decide) (by decide)).1 0
    (by decide)

/-- The spec-side notion for C8: a well-formed 4-digit year string. -/
def isFourDigitYear (s : String) : Bool :=
  s.length == 4 && s.toList.all Char.isDigit

/-- C8, counterexample to the claim as stated: `create_year_folder`
validates with `year.isdigit()` only, so the 5-digit string `"12345"`
is not rejected — it creates the folder instead of failing with
`InvalidYear`. -/
theorem claim_C8_counterexample :
    isFourDigitYear "12345" = false ∧
    createYearFolder "12345" ⟨false, none⟩ =
      (⟨true, none⟩, .created) := by decide

/-- C8, amended.  `createYear` rejects exactly the year strings that
are not nonempty all-digit strings; any all-digit string of any length
(five digits, zero-padded two digits, ...) is accepted; on rejection
the state is unchanged (nothing is created). -/
theorem claim_C8_amended_digit_validation (year : String)
    (st : YearState) :
    ((createYearFolder year st).2 = .invalidYear ↔
      pyIsdigit year = false) ∧
    (pyIsdigit year = false → createYearFolder year st =
      (st, .invalidYear)) := by
  unfold createYearFolder
  cases hy : pyIsdigit year with
  | false => simp
  | true =>
      by_cases hf : st.folderExists <;> simp [hf]

/-- Witness for the amended C8 at a concrete malformed year. -/
theorem claim_C8_amended_witness :
    createYearFolder "20a4" ⟨false, none⟩ = (⟨false, none⟩,
      .invalidYear) :=
  (claim_C8_amended_digit_validation "20a4" ⟨false, none⟩).2 (by decide)

/-- C9.  Ledger creation is idempotent and self-sufficient:
`create_track_date` needs no prior year creation (it makes the folder
itself); a first call creates the ledger with header row
`date, file_1 .. file_11` and reports Created; a call finding a ledger
reports AlreadyExists and leaves the ledger exactly as it was. -/
theorem claim_C9_ledger_creation_idempotent (year : String)
    (st : YearState) (hy : pyIsdigit year = true)
    (hl : st.ledger = none) :
    createTrackDate year st =
      (⟨true, some ⟨["date", "file_1", "file_2", "file_3", "file_4",
        "file_5", "file_6", "file_7", "file_8", "file_9", "file_10",
        "file_11"], []⟩⟩, .created) ∧
    ∀ st2 : YearState, ∀ l : Ws, st2.ledger = some l →
      createTrackDate year st2 = (⟨true, some l⟩, .alreadyExists) := by
  constructor
  · have : trackingHeaders = ["date", "file_1", "file_2", "file_3",
        "file_4", "file_5", "file_6", "file_7", "file_8", "file_9",
        "file_10", "file_11"] := by decide
    simp [createTrackDate, hy, hl, this]
  · intro st2 l hl2
    simp [createTrackDate, hy, hl2]

/-- Witness for C9: creating the 2026 ledger twice. -/
theorem claim_C9_witness :
    createTrackDate "2026" ⟨false, none⟩ =
      (⟨true, some ⟨["date", "file_1", "file_2", "file_3", "file_4",
        "file_5", "file_6", "file_7", "file_8", "file_9", "file_10",
        "file_11"], []⟩⟩, .created) ∧
    createTrackDate "2026"
      ⟨true, some ⟨trackingHeaders, []⟩⟩ =
      (⟨true, some ⟨trackingHeaders, []⟩⟩, .alreadyExists) := by
  have h := claim_C9_ledger_creation_idempotent "2026" ⟨false, none⟩
    (by decide) rfl
  exact ⟨h.1, h.2 ⟨true, some ⟨trackingHeaders, []⟩⟩
    ⟨trackingHeaders, []⟩ rfl⟩

/-!  ## The reconciliation driver `process_date` -/

theorem readSlot_eq_snapGet (ws : Ws) (date slot : String) :
    readSlot ws date slot =
      snapGet ws.headers (getStatusRow ws date) slot := rfl

/-- A single-key upsert never touches any other slot of the date's row
(whether the row existed or not). -/
theorem upsert_readSlot_frame {rows : List (List Cell)}
    {date k : String} {v : Cell} (slot : String) (hk : k ≠ "date")
    (hsd : slot ≠ "date") (hsk : slot ≠ k) :
    readSlot (manageTrackingPost ⟨trackingHeaders, rows⟩ date
      [(k, v)]).1 date slot =
    readSlot ⟨trackingHeaders, rows⟩ date slot := by
  cases hfind : findRowIdx trackingHeaders date rows with
  | some i => exact upsert_readSlot_frame_found slot hfind hk hsk
  | none =>
      rw [upsert_readSlot_frame_missing slot hfind hk hsd hsk,
        readSlot_of_none slot hfind]

theorem processDateStep_skip {snap : Option (List Cell)}
    {date key : String} {dl : String → Option String} (st : DriverLog)
    (hcur : pyTruthy (snapGet trackingHeaders snap key) = true) :
    processDateStep trackingHeaders snap date dl st key = st := by
  simp [processDateStep, hcur]

theorem processDateStep_invoke_none {snap : Option (List Cell)}
    {date key : String} {dl : String → Option String} (st : DriverLog)
    (hcur : pyTruthy (snapGet trackingHeaders snap key) = false)
    (hdl : dl key = none) :
    processDateStep trackingHeaders snap date dl st key =
      { st with calls := st.calls ++ [key] } := by
  simp [processDateStep, hcur, hdl]

theorem processDateStep_invoke_blank {snap : Option (List Cell)}
    {date key : String} {dl : String → Option String} (st : DriverLog)
    (hcur : pyTruthy (snapGet trackingHeaders snap key) = false)
    (hdl : dl key = some "") :
    processDateStep trackingHeaders snap date dl st key =
      { st with calls := st.calls ++ [key] } := by
  simp [processDateStep, hcur, hdl]

theorem processDateStep_invoke_some {snap : Option (List Cell)}
    {date key : String} {dl : String → Option String} (st : DriverLog)
    {s : String}
    (hcur : pyTruthy (snapGet trackingHeaders snap key) = false)
    (hdl : dl key = some s) (hs : s ≠ "") :
    processDateStep trackingHeaders snap date dl st key =
      ⟨(manageTrackingPost st.ws date [(key, some s)]).1,
        st.calls ++ [key], st.posted ++ [(key, s)]⟩ := by
  simp [processDateStep, hcur, hdl, hs]

/-- Each loop iteration either leaves the posted list alone or appends
one update with a non-empty value. -/
theorem processDateStep_posted {snap : Option (List Cell)}
    {date key : String} {dl : String → Option String} (st : DriverLog) :
    (processDateStep trackingHeaders snap date dl st key).posted =
      st.posted ∨
    ∃ k s, s ≠ "" ∧
      (processDateStep trackingHeaders snap date dl st key).posted =
        st.posted ++ [(k, s)] := by
  cases hcur : pyTruthy (snapGet trackingHeaders snap key) with
  | true => rw [processDateStep_skip st hcur]; exact Or.inl rfl
  | false =>
      cases hdl : dl key with
      | none => rw [processDateStep_invoke_none st hcur hdl]; exact Or.inl rfl
      | some s =>
          by_cases hs : s = ""
          · subst hs
            rw [processDateStep_invoke_blank st hcur hdl]
            exact Or.inl rfl
          · rw [processDateStep_invoke_some st hcur hdl hs]
            exact Or.inr ⟨key, s, hs, rfl⟩

theorem foldl_posted_nonempty {snap : Option (List Cell)}
    {date : String} {dl : String → Option String} :
    ∀ (keys : List String) (st : DriverLog),
      (∀ u ∈ st.posted, u.2 ≠ "") →
      ∀ u ∈ (keys.foldl
        (processDateStep trackingHeaders snap date dl) st).posted,
        u.2 ≠ "" := by
  intro keys
  induction keys with
  | nil => intro st h; simpa using h
  | cons key rest ih =>
      intro st h
      apply ih
      rcases @processDateStep_posted snap date key dl st with
        hp | ⟨k, s, hs, hp⟩
      · rw [hp]; exact h
      · rw [hp]
        intro u hu
        rcases List.mem_append.1 hu with hu1 | hu2
        · exact h u hu1
        · rw [List.mem_singleton] at hu2
          subst hu2
          exact hs

/-- When the snapshot shows `slot` already filled, a whole pass leaves
the slot's stored value unchanged and never invokes its downloader. -/
theorem foldl_snap_truthy {snap : Option (List Cell)} {date : String}
    {dl : String → Option String} {slot : String}
    (hsnap : pyTruthy (snapGet trackingHeaders snap slot) = true) :
    ∀ (keys : List String), (∀ k ∈ keys, k ∈ fileSlots) →
    ∀ (st : DriverLog), st.ws.headers = trackingHeaders →
      pyTruthy (readSlot st.ws date slot) = true →
      ((keys.foldl (processDateStep trackingHeaders snap date dl)
          st).ws.headers = trackingHeaders ∧
       readSlot (keys.foldl (processDateStep trackingHeaders snap date
          dl) st).ws date slot = readSlot st.ws date slot ∧
       (slot ∈ (keys.foldl (processDateStep trackingHeaders snap date
          dl) st).calls ↔ slot ∈ st.calls)) := by
  intro keys
  induction keys with
  | nil => intro _ st hh _; exact ⟨hh, rfl, Iff.rfl⟩
  | cons key rest ih =>
      intro hmem st hh htr
      have hkf : key ∈ fileSlots := hmem key (List.mem_cons_self key rest)
      have hkd : key ≠ "date" := (fileSlots_facts key hkf).1
      have hrest : ∀ k ∈ rest, k ∈ fileSlots := fun k hk =>
        hmem k (List.mem_cons_of_mem key hk)
      have hws : st.ws = ⟨trackingHeaders, st.ws.rows⟩ := by
        rw [← hh]
      set st1 := processDateStep trackingHeaders snap date dl st key
        with hst1
      have hstep : st1.ws.headers = trackingHeaders ∧
          readSlot st1.ws date slot = readSlot st.ws date slot ∧
          (slot ∈ st1.calls ↔ slot ∈ st.calls) := by
        cases hcur : pyTruthy (snapGet trackingHeaders snap key) with
        | true => rw [hst1, processDateStep_skip st hcur]; exact ⟨hh, rfl, Iff.rfl⟩
        | false =>
            have hks : key ≠ slot := by
              intro hkk
              rw [hkk] at hcur
              rw [hcur] at hsnap
              exact Bool.false_ne_true hsnap
            have hcalls : slot ∈ st.calls ++ [key] ↔ slot ∈ st.calls := by
              rw [List.mem_append, List.mem_singleton]
              constructor
              · rintro (h | h)
                · exact h
                · exact absurd h.symm hks
              · exact Or.inl
            cases hdl : dl key with
            | none =>
                rw [hst1, processDateStep_invoke_none st hcur hdl]
                exact ⟨hh, rfl, hcalls⟩
            | some s =>
                by_cases hs : s = ""
                · subst hs
                  rw [hst1, processDateStep_invoke_blank st hcur hdl]
                  exact ⟨hh, rfl, hcalls⟩
                · rw [hst1, processDateStep_invoke_some st hcur hdl hs]
                  refine ⟨?_, ?_, hcalls⟩
                  · rw [upsert_headers, hh]
                  · obtain ⟨i, hfind⟩ : ∃ i,
                        findRowIdx trackingHeaders date st.ws.rows =
                          some i := by
                      cases hfind : findRowIdx trackingHeaders date
                          st.ws.rows with
                      | some i => exact ⟨i, rfl⟩
                      | none =>
                          rw [hws, readSlot_of_none slot hfind] at htr
                          simp [pyTruthy] at htr
                    have := @upsert_readSlot_frame_found st.ws.rows
                      date key (some s) i slot hfind hkd
                      (fun h => hks h.symm)
                    rw [hws]
                    exact this
      have htr1 : pyTruthy (readSlot st1.ws date slot) = true := by
        rw [hstep.2.1]
        exact htr
      obtain ⟨h1, h2, h3⟩ := ih hrest st1 hstep.1 htr1
      refine ⟨h1, ?_, ?_⟩
      · rw [List.foldl_cons, ← hst1, h2, hstep.2.1]
      · rw [List.foldl_cons, ← hst1, h3, hstep.2.2]

/-- Folding the loop over keys that are all different from `slot`
leaves `slot`'s stored value, its presence in `calls`, and its posted
updates untouched. -/
theorem foldl_frame_ne {snap : Option (List Cell)} {date : String}
    {dl : String → Option String} {slot : String} (hsd : slot ≠ "date") :
    ∀ (keys : List String), (∀ k ∈ keys, k ∈ fileSlots ∧ k ≠ slot) →
    ∀ (st : DriverLog), st.ws.headers = trackingHeaders →
      ((keys.foldl (processDateStep trackingHeaders snap date dl)
          st).ws.headers = trackingHeaders ∧
       readSlot (keys.foldl (processDateStep trackingHeaders snap date
          dl) st).ws date slot = readSlot st.ws date slot ∧
       (slot ∈ (keys.foldl (processDateStep trackingHeaders snap date
          dl) st).calls ↔ slot ∈ st.calls) ∧
       (∀ x, (slot, x) ∈ (keys.foldl (processDateStep trackingHeaders
          snap date dl) st).posted ↔ (slot, x) ∈ st.posted)) := by
  intro keys
  induction keys with
  | nil => intro _ st hh; exact ⟨hh, rfl, Iff.rfl, fun _ => Iff.rfl⟩
  | cons key rest ih =>
      intro hmem st hh
      obtain ⟨hkf, hks⟩ := hmem key (List.mem_cons_self key rest)
      have hkd : key ≠ "date" := (fileSlots_facts key hkf).1
      have hrest : ∀ k ∈ rest, k ∈ fileSlots ∧ k ≠ slot := fun k hk =>
        hmem k (List.mem_cons_of_mem key hk)
      have hws : st.ws = ⟨trackingHeaders, st.ws.rows⟩ := by rw [← hh]
      set st1 := processDateStep trackingHeaders snap date dl st key
        with hst1
      have hcalls : slot ∈ st.calls ++ [key] ↔ slot ∈ st.calls := by
        rw [List.mem_append, List.mem_singleton]
        constructor
        · rintro (h | h)
          · exact h
          · exact absurd h.symm hks
        · exact Or.inl
      have hstep : st1.ws.headers = trackingHeaders ∧
          readSlot st1.ws date slot = readSlot st.ws date slot ∧
          (slot ∈ st1.calls ↔ slot ∈ st.calls) ∧
          (∀ x, (slot, x) ∈ st1.posted ↔ (slot, x) ∈ st.posted) := by
        cases hcur : pyTruthy (snapGet trackingHeaders snap key) with
        | true =>
            rw [hst1, processDateStep_skip st hcur]
            exact ⟨hh, rfl, Iff.rfl, fun _ => Iff.rfl⟩
        | false =>
            cases hdl : dl key with
            | none =>
                rw [hst1, processDateStep_invoke_none st hcur hdl]
                exact ⟨hh, rfl, hcalls, fun _ => Iff.rfl⟩
            | some s =>
                by_cases hsempty : s = ""
                · subst hsempty
                  rw [hst1, processDateStep_invoke_blank st hcur hdl]
                  exact ⟨hh, rfl, hcalls, fun _ => Iff.rfl⟩
                · rw [hst1, processDateStep_invoke_some st hcur hdl
                    hsempty]
                  refine ⟨by rw [upsert_headers, hh], ?_, hcalls, ?_⟩
                  · rw [hws]
                    exact upsert_readSlot_frame slot hkd hsd
                      (fun h => hks h.symm)
                  · intro x
                    rw [List.mem_append, List.mem_singleton]
                    constructor
                    · rintro (h | h)
                      · exact h
                      · injection h with h1 h2
                        exact absurd h1.symm hks
                    · exact Or.inl
      obtain ⟨h1, h2, h3, h4⟩ := ih hrest st1 hstep.1
      refine ⟨h1, ?_, ?_, ?_⟩
      · rw [List.foldl_cons, ← hst1, h2, hstep.2.1]
      · rw [List.foldl_cons, ← hst1, h3, hstep.2.2.1]
      · intro x
        rw [List.foldl_cons, ← hst1, h4 x, hstep.2.2.2 x]

/-- A full `process_date` pass over a date whose `slot` is already
filled: the slot keeps its value and its downloader is not invoked. -/
theorem processDate_filled_slot (rows : List (List Cell))
    (date slot : String) (dl : String → Option String)
    (htr : pyTruthy (readSlot ⟨trackingHeaders, rows⟩ date slot) =
      true) :
    (processDate ⟨trackingHeaders, rows⟩ date dl).ws.headers =
      trackingHeaders ∧
    readSlot (processDate ⟨trackingHeaders, rows⟩ date dl).ws date
      slot = readSlot ⟨trackingHeaders, rows⟩ date slot ∧
    slot ∉ (processDate ⟨trackingHeaders, rows⟩ date dl).calls := by
  have hsnap : pyTruthy (snapGet trackingHeaders
      (getStatusRow ⟨trackingHeaders, rows⟩ date) slot) = true := htr
  have hkeys : ∀ k ∈ downloadTaskKeys, k ∈ fileSlots := by decide
  have hpd : processDate ⟨trackingHeaders, rows⟩ date dl =
      downloadTaskKeys.foldl (processDateStep trackingHeaders
        (getStatusRow ⟨trackingHeaders, rows⟩ date) date dl)
      ⟨⟨trackingHeaders, rows⟩, [], []⟩ := rfl
  have h := @foldl_snap_truthy (getStatusRow ⟨trackingHeaders, rows⟩
    date) date dl slot hsnap downloadTaskKeys hkeys
    ⟨⟨trackingHeaders, rows⟩, [], []⟩ rfl htr
  rw [hpd]
  refine ⟨h.1, h.2.1, ?_⟩
  intro hmem
  have := h.2.2.1 hmem
  simp at this

/-- A full `process_date` pass over a date whose `slot` is empty: the
slot's downloader is invoked; a `None` (or empty) result posts nothing
and leaves the slot as it was; a non-empty result fills the slot. -/
theorem processDate_empty_slot (rows : List (List Cell))
    (date slot : String) (dl : String → Option String)
    (hs : slot ∈ downloadTaskKeys)
    (hempty : pyTruthy (readSlot ⟨trackingHeaders, rows⟩ date slot) =
      false) :
    (processDate ⟨trackingHeaders, rows⟩ date dl).ws.headers =
      trackingHeaders ∧
    slot ∈ (processDate ⟨trackingHeaders, rows⟩ date dl).calls ∧
    ((dl slot = none ∨ dl slot = some "") →
      readSlot (processDate ⟨trackingHeaders, rows⟩ date dl).ws date
        slot = readSlot ⟨trackingHeaders, rows⟩ date slot ∧
      ∀ x, (slot, x) ∉
        (processDate ⟨trackingHeaders, rows⟩ date dl).posted) ∧
    (∀ s, dl slot = some s → s ≠ "" →
      readSlot (processDate ⟨trackingHeaders, rows⟩ date dl).ws date
        slot = some s) := by
  have hslotf : slot ∈ fileSlots := by
    have : ∀ k ∈ downloadTaskKeys, k ∈ fileSlots := by decide
    exact this slot hs
  obtain ⟨hsd, hsome⟩ := fileSlots_facts slot hslotf
  obtain ⟨c, hc⟩ := Option.isSome_iff_exists.1 hsome
  obtain ⟨pre, post, hdecomp⟩ := List.append_of_mem hs
  have hnodup : downloadTaskKeys.Nodup := by decide
  rw [hdecomp] at hnodup
  have hnotpre : slot ∉ pre := by
    rcases List.nodup_append.1 hnodup with ⟨_, _, hdisj⟩
    intro hmem
    exact hdisj hmem (List.mem_cons_self slot post)
  have hnotpost : slot ∉ post := by
    rcases List.nodup_append.1 hnodup with ⟨_, hcons, _⟩
    exact (List.nodup_cons.1 hcons).1
  have hsub : ∀ k ∈ downloadTaskKeys, k ∈ fileSlots := by decide
  have hpre : ∀ k ∈ pre, k ∈ fileSlots ∧ k ≠ slot := by
    intro k hk
    refine ⟨hsub k (hdecomp ▸ List.mem_append_left _ hk), ?_⟩
    intro hkk
    exact hnotpre (hkk ▸ hk)
  have hpost : ∀ k ∈ post, k ∈ fileSlots ∧ k ≠ slot := by
    intro k hk
    refine ⟨hsub k (hdecomp ▸ List.mem_append_right _
      (List.mem_cons_of_mem slot hk)), ?_⟩
    intro hkk
    exact hnotpost (hkk ▸ hk)
  have hsnap : pyTruthy (snapGet trackingHeaders
      (getStatusRow ⟨trackingHeaders, rows⟩ date) slot) = false :=
    hempty
  have hunfold : processDate ⟨trackingHeaders, rows⟩ date dl =
      (pre ++ slot :: post).foldl
        (processDateStep trackingHeaders
          (getStatusRow ⟨trackingHeaders, rows⟩ date) date dl)
        ⟨⟨trackingHeaders, rows⟩, [], []⟩ := by
    rw [processDate, ← hdecomp]
  rw [hunfold, List.foldl_append, List.foldl_cons]
  obtain ⟨hp1, hp2, hp3, hp4⟩ := foldl_frame_ne hsd pre hpre
    ⟨⟨trackingHeaders, rows⟩, [], []⟩ rfl
  set st1 := pre.foldl (processDateStep trackingHeaders
    (getStatusRow ⟨trackingHeaders, rows⟩ date) date dl)
    ⟨⟨trackingHeaders, rows⟩, [], []⟩ with hst1
  have hws1 : st1.ws = ⟨trackingHeaders, st1.ws.rows⟩ := by rw [← hp1]
  cases hdl : dl slot with
  | none =>
      rw [processDateStep_invoke_none st1 hsnap hdl]
      obtain ⟨hq1, hq2, hq3, hq4⟩ := foldl_frame_ne hsd post hpost
        { st1 with calls := st1.calls ++ [slot] } hp1
      refine ⟨hq1, ?_, ?_, ?_⟩
      · rw [hq3]
        show slot ∈ st1.calls ++ [slot]
        exact List.mem_append_right _ (by simp)
      · intro _
        constructor
        · rw [hq2, hp2]
        · intro x hx
          have := (hq4 x).1 hx
          have h0 := (hp4 x).1 this
          simp at h0
      · intro s hds
        exact fun _ => Option.noConfusion hds
  | some s =>
      by_cases hsempty : s = ""
      · subst hsempty
        rw [processDateStep_invoke_blank st1 hsnap hdl]
        obtain ⟨hq1, hq2, hq3, hq4⟩ := foldl_frame_ne hsd post hpost
          { st1 with calls := st1.calls ++ [slot] } hp1
        refine ⟨hq1, ?_, ?_, ?_⟩
        · rw [hq3]
          show slot ∈ st1.calls ++ [slot]
          exact List.mem_append_right _ (by simp)
        · intro _
          constructor
          · rw [hq2, hp2]
          · intro x hx
            have := (hq4 x).1 hx
            have h0 := (hp4 x).1 this
            simp at h0
        · intro s2 hds hs2
          exact absurd (Option.some.inj hds).symm hs2
      · rw [processDateStep_invoke_some st1 hsnap hdl hsempty]
        obtain ⟨hq1, hq2, hq3, hq4⟩ := foldl_frame_ne hsd post hpost
          ⟨(manageTrackingPost st1.ws date [(slot, some s)]).1,
            st1.calls ++ [slot], st1.posted ++ [(slot, s)]⟩
          (by rw [upsert_headers, hp1])
        have hhit : readSlot (manageTrackingPost st1.ws date
            [(slot, some s)]).1 date slot = some s := by
          rw [hws1]
          exact upsert_readSlot_hit hsd hc
        refine ⟨hq1, ?_, ?_, ?_⟩
        · rw [hq3]
          show slot ∈ st1.calls ++ [slot]
          exact List.mem_append_right _ (by simp)
        · intro hcontra
          rcases hcontra with h | h
          · exact Option.noConfusion h
          · exact absurd (Option.some.inj h) hsempty
        · intro s2 hds hs2
          have hss : s2 = s := (Option.some.inj hds).symm
          subst hss
          rw [hq2, hhit]

/-- Restatement of `processDate_filled_slot` for a worksheet given by its headers
invariant rather than literally. -/
theorem processDate_filled_slot_ws (ws : Ws) (date slot : String)
    (dl : String → Option String) (hh : ws.headers = trackingHeaders)
    (htr : pyTruthy (readSlot ws date slot) = true) :
    (processDate ws date dl).ws.headers = trackingHeaders ∧
    readSlot (processDate ws date dl).ws date slot =
      readSlot ws date slot ∧
    slot ∉ (processDate ws date dl).calls := by
  obtain ⟨h0, r0⟩ := ws
  have hh2 : h0 = trackingHeaders := hh
  subst hh2
  exact processDate_filled_slot r0 date slot dl htr

/-- Restatement of `processDate_empty_slot` for a worksheet given by its headers
invariant rather than literally. -/
theorem processDate_empty_slot_ws (ws : Ws) (date slot : String)
    (dl : String → Option String) (hh : ws.headers = trackingHeaders)
    (hs : slot ∈ downloadTaskKeys)
    (hempty : pyTruthy (readSlot ws date slot) = false) :
    (processDate ws date dl).ws.headers = trackingHeaders ∧
    slot ∈ (processDate ws date dl).calls ∧
    ((dl slot = none ∨ dl slot = some "") →
      readSlot (processDate ws date dl).ws date slot =
        readSlot ws date slot ∧
      ∀ x, (slot, x) ∉ (processDate ws date dl).posted) ∧
    (∀ s, dl slot = some s → s ≠ "" →
      readSlot (processDate ws date dl).ws date slot = some s) := by
  obtain ⟨h0, r0⟩ := ws
  have hh2 : h0 = trackingHeaders := hh
  subst hh2
  exact processDate_empty_slot r0 date slot dl hs hempty

/-- C3, amended.  The store does not enforce monotonicity (see the
counterexample), but the reconciliation driver does: a `process_date`
pass never changes the stored value of a slot that is already
non-empty (it skips such slots), and every tracking update it posts
carries a non-empty value. -/
theorem claim_C3_amended_driver_monotonic (rows : List (List Cell))
    (date slot : String) (dl : String → Option String)
    (htr : pyTruthy (readSlot ⟨trackingHeaders, rows⟩ date slot) =
      true) :
    readSlot (processDate ⟨trackingHeaders, rows⟩ date dl).ws date
      slot = readSlot ⟨trackingHeaders, rows⟩ date slot ∧
    ∀ u ∈ (processDate ⟨trackingHeaders, rows⟩ date dl).posted,
      u.2 ≠ "" := by
  constructor
  · exact (processDate_filled_slot rows date slot dl htr).2.1
  · have hpd : processDate ⟨trackingHeaders, rows⟩ date dl =
        downloadTaskKeys.foldl (processDateStep trackingHeaders
          (getStatusRow ⟨trackingHeaders, rows⟩ date) date dl)
        ⟨⟨trackingHeaders, rows⟩, [], []⟩ := rfl
    rw [hpd]
    exact foldl_posted_nonempty downloadTaskKeys
      ⟨⟨trackingHeaders, rows⟩, [], []⟩ (by simp)

/-- Witness for the amended C3: a filled `file_1` survives a pass whose
downloader would return a different value. -/
theorem claim_C3_amended_witness :
    readSlot (processDate
      ⟨trackingHeaders, [[some "2026-01-02", some "p.csv"]]⟩
      "2026-01-02" (fun _ => some "q.csv")).ws "2026-01-02" "file_1" =
    readSlot ⟨trackingHeaders, [[some "2026-01-02", some "p.csv"]]⟩
      "2026-01-02" "file_1" :=
  (claim_C3_amended_driver_monotonic
    [[some "2026-01-02", some "p.csv"]] "2026-01-02" "file_1"
    (fun _ => some "q.csv") (by decide)).1

/-- C6.  Sentinel-on-failure in the least-robust driver
(`download_main.py`): when the tracked slot is empty (or the row is
missing) and the downloader returns `None`, the loop still posts an
update for that (date, slot) whose value is the stringified result
`"None"` — a truthy placeholder — instead of leaving the slot
empty. -/
theorem claim_C6_sentinel_on_failure (rows : List (List Cell))
    (date slot : String) (hs : slot ∈ fileSlots)
    (hempty : pyTruthy (readSlot ⟨trackingHeaders, rows⟩ date slot) =
      false) :
    (downloadMainSlotStep ⟨trackingHeaders, rows⟩ slot date none).2 =
      some "None" ∧
    pyTruthy (some "None") = true ∧
    readSlot (downloadMainSlotStep ⟨trackingHeaders, rows⟩ slot date
      none).1 date slot = some "None" := by
  obtain ⟨hkd, hsome⟩ := fileSlots_facts slot hs
  obtain ⟨c, hc⟩ := Option.isSome_iff_exists.1 hsome
  have hhit := @upsert_readSlot_hit rows date slot (some "None") c
    hkd hc
  cases hfind : findRowIdx trackingHeaders date rows with
  | some i =>
      have hrow : getStatusRow ⟨trackingHeaders, rows⟩ date =
          some (rows.getD i []) := by
        simp [getStatusRow, hfind]
      have hcur : pyTruthy (fsGet trackingHeaders (rows.getD i [])
          slot) = false := by
        rw [← readSlot_of_find slot hfind]
        exact hempty
      rw [List.getD_eq_getElem?_getD] at hcur
      refine ⟨?_, by decide, ?_⟩
      · simp [downloadMainSlotStep, hrow, hcur, pyFormat, List.getD]
      · simp only [downloadMainSlotStep, hrow, List.getD_eq_getElem?_getD,
          hcur, Bool.false_eq_true, if_false, pyFormat]
        exact hhit
  | none =>
      have hrow : getStatusRow ⟨trackingHeaders, rows⟩ date = none := by
        simp [getStatusRow, hfind]
      refine ⟨?_, by decide, ?_⟩
      · simp [downloadMainSlotStep, hrow, pyFormat]
      · simp only [downloadMainSlotStep, hrow, pyFormat]
        exact hhit

/-- Witness for C6 on an empty ledger. -/
theorem claim_C6_witness :
    (downloadMainSlotStep ⟨trackingHeaders, []⟩ "file_1" "2026-01-02"
      none).2 = some "None" ∧
    pyTruthy (some "None") = true ∧
    readSlot (downloadMainSlotStep ⟨trackingHeaders, []⟩ "file_1"
      "2026-01-02" none).1 "2026-01-02" "file_1" = some "None" :=
  claim_C6_sentinel_on_failure [] "2026-01-02" "file_1" (by decide)
    (by decide)

/-- C7.  Retry-on-failure and Filled-is-terminal in `process_date`:
an empty slot whose downloader returns `None` on pass 1 gets no
tracking update and stays empty; pass 2 re-invokes the downloader and,
on a non-empty path `p`, fills the slot with `p`; pass 3 skips the slot
without invoking its downloader and the value survives. -/
theorem claim_C7_retry_then_terminal (rows : List (List Cell))
    (date slot : String) (dl1 dl2 dl3 : String → Option String)
    (p : String) (hs : slot ∈ downloadTaskKeys)
    (hempty : pyTruthy (readSlot ⟨trackingHeaders, rows⟩ date slot) =
      false)
    (h1 : dl1 slot = none) (h2 : dl2 slot = some p) (hp : p ≠ "") :
    slot ∈ (processDate ⟨trackingHeaders, rows⟩ date dl1).calls ∧
    (∀ x, (slot, x) ∉
      (processDate ⟨trackingHeaders, rows⟩ date dl1).posted) ∧
    pyTruthy (readSlot (processDate ⟨trackingHeaders, rows⟩ date
      dl1).ws date slot) = false ∧
    slot ∈ (processDate (processDate ⟨trackingHeaders, rows⟩ date
      dl1).ws date dl2).calls ∧
    readSlot (processDate (processDate ⟨trackingHeaders, rows⟩ date
      dl1).ws date dl2).ws date slot = some p ∧
    slot ∉ (processDate (processDate (processDate
      ⟨trackingHeaders, rows⟩ date dl1).ws date dl2).ws date
      dl3).calls ∧
    readSlot (processDate (processDate (processDate
      ⟨trackingHeaders, rows⟩ date dl1).ws date dl2).ws date dl3).ws
      date slot = some p := by
  obtain ⟨e1, e2, e3, e4⟩ := processDate_empty_slot rows date slot dl1
    hs hempty
  obtain ⟨ha, hb⟩ := e3 (Or.inl h1)
  have hempty1 : pyTruthy (readSlot (processDate
      ⟨trackingHeaders, rows⟩ date dl1).ws date slot) = false := by
    rw [ha]
    exact hempty
  obtain ⟨f1, f2, f3, f4⟩ := processDate_empty_slot_ws
    (processDate ⟨trackingHeaders, rows⟩ date dl1).ws date slot dl2 e1
    hs hempty1
  have hfill := f4 p h2 hp
  have htr2 : pyTruthy (readSlot (processDate
      (processDate ⟨trackingHeaders, rows⟩ date dl1).ws date dl2).ws
      date slot) = true := by
    rw [hfill]
    simp [pyTruthy, hp]
  obtain ⟨g1, g2, g3⟩ := processDate_filled_slot_ws
    (processDate (processDate ⟨trackingHeaders, rows⟩ date dl1).ws
      date dl2).ws date slot dl3 f1 htr2
  refine ⟨e2, hb, hempty1, f2, hfill, g3, ?_⟩
  rw [g2, hfill]

/-- Witness for C7 at a concrete three-pass run on an empty ledger. -/
theorem claim_C7_witness :
    "file_1" ∈ (processDate ⟨trackingHeaders, []⟩ "2026-01-02"
      (fun _ => none)).calls ∧
    (∀ x, ("file_1", x) ∉ (processDate ⟨trackingHeaders, []⟩
      "2026-01-02" (fun _ => none)).posted) ∧
    pyTruthy (readSlot (processDate ⟨trackingHeaders, []⟩ "2026-01-02"
      (fun _ => none)).ws "2026-01-02" "file_1") = false ∧
    "file_1" ∈ (processDate (processDate ⟨trackingHeaders, []⟩
      "2026-01-02" (fun _ => none)).ws "2026-01-02"
      (fun _ => some "p1.csv")).calls ∧
    readSlot (processDate (processDate ⟨trackingHeaders, []⟩
      "2026-01-02" (fun _ => none)).ws "2026-01-02"
      (fun _ => some "p1.csv")).ws "2026-01-02" "file_1" =
      some "p1.csv" ∧
    "file_1" ∉ (processDate (processDate (processDate
      ⟨trackingHeaders, []⟩ "2026-01-02" (fun _ => none)).ws
      "2026-01-02" (fun _ => some "p1.csv")).ws "2026-01-02"
      (fun _ => some "XX")).calls ∧
    readSlot (processDate (processDate (processDate
      ⟨trackingHeaders, []⟩ "2026-01-02" (fun _ => none)).ws
      "2026-01-02" (fun _ => some "p1.csv")).ws "2026-01-02"
      (fun _ => some "XX")).ws "2026-01-02" "file_1" =
      some "p1.csv" :=
  claim_C7_retry_then_terminal [] "2026-01-02" "file_1"
    (fun _ => none) (fun _ => some "p1.csv") (fun _ => some "XX")
    "p1.csv" (by decide) (by decide) rfl rfl (by decide)

/-!  ## Calendar arithmetic -/

theorem dBY_succ (y : Nat) (hy : 1 ≤ y) :
    daysBeforeYear (y + 1) = daysBeforeYear y +
      (if isLeap y then 366 else 365) := by
  have hn : y - 1 + 1 = y := Nat.succ_pred_eq_of_pos hy
  have h4 : y / 4 = (y - 1) / 4 + if 4 ∣ y then 1 else 0 := by
    conv_lhs => rw [← hn]
    rw [Nat.succ_div, hn]
  have h100 : y / 100 = (y - 1) / 100 + if 100 ∣ y then 1 else 0 := by
    conv_lhs => rw [← hn]
    rw [Nat.succ_div, hn]
  have h400 : y / 400 = (y - 1) / 400 + if 400 ∣ y then 1 else 0 := by
    conv_lhs => rw [← hn]
    rw [Nat.succ_div, hn]
  have hq1 : (y - 1) / 100 ≤ (y - 1) / 4 :=
    Nat.div_le_div_left (by norm_num) (by norm_num)
  have himp1 : 400 ∣ y → 100 ∣ y := fun h =>
    dvd_trans (by norm_num) h
  have himp2 : 100 ∣ y → 4 ∣ y := fun h =>
    dvd_trans (by norm_num) h
  have hmod : ∀ k : Nat, y % k = 0 ↔ k ∣ y := fun k =>
    (Nat.dvd_iff_mod_eq_zero).symm
  unfold daysBeforeYear
  simp only [Nat.add_sub_cancel]
  by_cases hA : 4 ∣ y
  · by_cases hB : 100 ∣ y
    · by_cases hC : 400 ∣ y
      · have hl : isLeap y = true := by
          simp [isLeap, (hmod 4).2 hA, (hmod 400).2 hC]
        rw [h4, h100, h400, if_pos hA, if_pos hB, if_pos hC]
        simp only [hl, if_true]
        omega
      · have hl : isLeap y = false := by
          have hb : y % 100 = 0 := (hmod 100).2 hB
          have hc : y % 400 ≠ 0 := fun h => hC ((hmod 400).1 h)
          simp [isLeap, hb, hc]
        rw [h4, h100, h400, if_pos hA, if_pos hB, if_neg hC]
        simp only [hl, Bool.false_eq_true, if_false]
        omega
    · have hC : ¬400 ∣ y := fun h => hB (himp1 h)
      have hl : isLeap y = true := by
        have hb : y % 100 ≠ 0 := fun h => hB ((hmod 100).1 h)
        simp [isLeap, (hmod 4).2 hA, hb]
      rw [h4, h100, h400, if_pos hA, if_neg hB, if_neg hC]
      simp only [hl, if_true]
      omega
  · have hB : ¬100 ∣ y := fun h => hA (himp2 h)
    have hC : ¬400 ∣ y := fun h => hB (himp1 h)
    have hl : isLeap y = false := by
      have ha : y % 4 ≠ 0 := fun h => hA ((hmod 4).1 h)
      simp [isLeap, ha]
    rw [h4, h100, h400, if_neg hA, if_neg hB, if_neg hC]
    simp only [hl, Bool.false_eq_true, if_false]
    omega

theorem one_le_daysInMonth (y m : Nat) (h1 : 1 ≤ m) (h2 : m ≤ 12) :
    1 ≤ daysInMonth y m := by
  cases hl : isLeap y <;> interval_cases m <;> simp [daysInMonth, hl]

theorem dBM_succ (y m : Nat) (hm1 : 1 ≤ m) (hm2 : m ≤ 11) :
    daysBeforeMonth (isLeap y) (m + 1) =
      daysBeforeMonth (isLeap y) m + daysInMonth y m := by
  cases hl : isLeap y <;> interval_cases m <;>
    simp [daysBeforeMonth, daysInMonth, hl]

theorem dBM_mono (l : Bool) {i j : Nat} (h1 : 1 ≤ i) (h2 : i ≤ j)
    (h3 : j ≤ 12) : daysBeforeMonth l i ≤ daysBeforeMonth l j := by
  have h4 : 1 ≤ j := le_trans h1 h2
  cases l <;> interval_cases j <;> interval_cases i <;>
    simp [daysBeforeMonth]

theorem dBM_add_dim_le (y m : Nat) (hm1 : 1 ≤ m) (hm2 : m ≤ 12) :
    daysBeforeMonth (isLeap y) m + daysInMonth y m ≤
      365 + (if isLeap y then 1 else 0) := by
  cases hl : isLeap y <;> interval_cases m <;>
    simp [daysBeforeMonth, daysInMonth, hl]

theorem validDate_mk {y m d : Nat} : validDate ⟨y, m, d⟩ ↔
    (1 ≤ y ∧ 1 ≤ m ∧ m ≤ 12 ∧ 1 ≤ d ∧ d ≤ daysInMonth y m) := Iff.rfl

theorem toOrdinal_mk {y m d : Nat} : toOrdinal ⟨y, m, d⟩ =
    daysBeforeYear y + daysBeforeMonth (isLeap y) m + d := rfl

theorem toOrdinal_nextDate (d : Date) (h : validDate d) :
    toOrdinal (nextDate d) = toOrdinal d + 1 := by
  obtain ⟨y, m, dd⟩ := d
  rw [validDate_mk] at h
  obtain ⟨hy, hm1, hm2, hd1, hd2⟩ := h
  by_cases h1 : dd < daysInMonth y m
  · simp only [nextDate, if_pos h1, toOrdinal_mk]
    omega
  · have hdd : dd = daysInMonth y m := by omega
    by_cases h2 : m < 12
    · simp only [nextDate, if_neg h1, if_pos h2, toOrdinal_mk]
      have hrec := dBM_succ y m hm1 (by omega)
      omega
    · have hm12 : m = 12 := by omega
      subst hm12
      have hdd31 : dd = 31 := by
        simpa [daysInMonth] using hdd
      subst hdd31
      simp only [nextDate, if_neg h1, if_neg h2, toOrdinal_mk]
      rw [dBY_succ y hy]
      cases hl : isLeap y <;> cases hl2 : isLeap (y + 1) <;>
        simp [daysBeforeMonth, hl, hl2]

theorem validDate_nextDate (d : Date) (h : validDate d) :
    validDate (nextDate d) := by
  obtain ⟨y, m, dd⟩ := d
  rw [validDate_mk] at h
  obtain ⟨hy, hm1, hm2, hd1, hd2⟩ := h
  by_cases h1 : dd < daysInMonth y m
  · simp only [nextDate, if_pos h1]
    rw [validDate_mk]
    exact ⟨hy, hm1, hm2, by omega, by omega⟩
  · by_cases h2 : m < 12
    · simp only [nextDate, if_neg h1, if_pos h2]
      rw [validDate_mk]
      refine ⟨hy, by omega, by omega, le_refl 1, ?_⟩
      exact one_le_daysInMonth y (m + 1) (by omega) (by omega)
    · simp only [nextDate, if_neg h1, if_neg h2]
      rw [validDate_mk]
      exact ⟨by omega, by norm_num, by norm_num, by norm_num,
        by simp [daysInMonth]⟩

theorem dBY_mono {y1 y2 : Nat} (h1 : 1 ≤ y1) (h : y1 ≤ y2) :
    daysBeforeYear y1 ≤ daysBeforeYear y2 := by
  obtain ⟨k, rfl⟩ := Nat.exists_eq_add_of_le h
  induction k with
  | zero => simp
  | succ n ih =>
      have hstep := dBY_succ (y1 + n) (by omega)
      rw [show y1 + (n + 1) = (y1 + n) + 1 by omega, hstep]
      exact le_trans (ih (by omega)) (Nat.le_add_right _ _)

theorem toOrdinal_le_dBY_succ (y m dd : Nat)
    (h : validDate ⟨y, m, dd⟩) :
    toOrdinal ⟨y, m, dd⟩ ≤ daysBeforeYear (y + 1) := by
  rw [validDate_mk] at h
  obtain ⟨hy, hm1, hm2, hd1, hd2⟩ := h
  rw [dBY_succ y hy, toOrdinal_mk]
  have hb := dBM_add_dim_le y m hm1 hm2
  cases hl : isLeap y <;> rw [hl] at hb <;> simp at hb ⊢ <;> omega

theorem dBY_lt_toOrdinal (y m dd : Nat) (h : validDate ⟨y, m, dd⟩) :
    daysBeforeYear y < toOrdinal ⟨y, m, dd⟩ := by
  rw [validDate_mk] at h
  obtain ⟨hy, hm1, hm2, hd1, hd2⟩ := h
  rw [toOrdinal_mk]
  omega

theorem toOrdinal_lt_of_lt {a b : Date} (ha : validDate a)
    (hb : validDate b)
    (hlt : a.year < b.year ∨ (a.year = b.year ∧
      (a.month < b.month ∨ (a.month = b.month ∧ a.day < b.day)))) :
    toOrdinal a < toOrdinal b := by
  obtain ⟨ya, ma, da⟩ := a
  obtain ⟨yb, mb, db⟩ := b
  have ha2 := validDate_mk.1 ha
  have hb2 := validDate_mk.1 hb
  obtain ⟨hya, hma1, hma2, hda1, hda2⟩ := ha2
  obtain ⟨hyb, hmb1, hmb2, hdb1, hdb2⟩ := hb2
  simp only at hlt
  rcases hlt with hy | ⟨hy, hrest⟩
  · have h1 := toOrdinal_le_dBY_succ ya ma da ha
    have h2 : daysBeforeYear (ya + 1) ≤ daysBeforeYear yb :=
      dBY_mono (by omega) (by omega)
    have h3 := dBY_lt_toOrdinal yb mb db hb
    omega
  · subst hy
    rcases hrest with hm | ⟨hm, hd⟩
    · have h2 := dBM_succ ya ma hma1 (by omega)
      have h3 : daysBeforeMonth (isLeap ya) (ma + 1) ≤
          daysBeforeMonth (isLeap ya) mb :=
        dBM_mono _ (by omega) (by omega) hmb2
      rw [toOrdinal_mk, toOrdinal_mk]
      omega
    · subst hm
      rw [toOrdinal_mk, toOrdinal_mk]
      omega

theorem toOrdinal_inj {a b : Date} (ha : validDate a)
    (hb : validDate b) (h : toOrdinal a = toOrdinal b) : a = b := by
  by_contra hne
  have htri : (a.year < b.year ∨ (a.year = b.year ∧
      (a.month < b.month ∨ (a.month = b.month ∧ a.day < b.day)))) ∨
      (b.year < a.year ∨ (b.year = a.year ∧
      (b.month < a.month ∨ (b.month = a.month ∧ b.day < a.day)))) := by
    obtain ⟨ya, ma, da⟩ := a
    obtain ⟨yb, mb, db⟩ := b
    simp only [Date.mk.injEq] at hne
    simp only
    omega
  rcases htri with h1 | h1
  · exact absurd h (Nat.ne_of_lt (toOrdinal_lt_of_lt ha hb h1))
  · exact absurd h.symm (Nat.ne_of_lt (toOrdinal_lt_of_lt hb ha h1))

theorem dateLe_iff_toOrdinal {a b : Date} (ha : validDate a)
    (hb : validDate b) :
    dateLe a b = true ↔ toOrdinal a ≤ toOrdinal b := by
  rw [dateLe, decide_eq_true_eq]
  constructor
  · intro h
    rcases h with hy | ⟨hy, hm | ⟨hm, hd⟩⟩
    · exact le_of_lt (toOrdinal_lt_of_lt ha hb (Or.inl hy))
    · exact le_of_lt (toOrdinal_lt_of_lt ha hb
        (Or.inr ⟨hy, Or.inl hm⟩))
    · rcases Nat.eq_or_lt_of_le hd with hdd | hdd
      · have hab : a = b := by
          obtain ⟨ya, ma, da⟩ := a
          obtain ⟨yb, mb, db⟩ := b
          simp only at hy hm hdd
          simp [hy, hm, hdd]
        rw [hab]
      · exact le_of_lt (toOrdinal_lt_of_lt ha hb
          (Or.inr ⟨hy, Or.inr ⟨hm, hdd⟩⟩))
  · intro h
    by_contra hc
    have hlt : b.year < a.year ∨ (b.year = a.year ∧
        (b.month < a.month ∨ (b.month = a.month ∧ b.day < a.day))) := by
      obtain ⟨ya, ma, da⟩ := a
      obtain ⟨yb, mb, db⟩ := b
      simp only at hc ⊢
      omega
    exact absurd h (not_le.2 (toOrdinal_lt_of_lt hb ha hlt))

theorem iterate_nextDate (s : Date) (hs : validDate s) (i : Nat) :
    validDate (nextDate^[i] s) ∧
      toOrdinal (nextDate^[i] s) = toOrdinal s + i := by
  induction i with
  | zero => exact ⟨hs, by simp⟩
  | succ n ih =>
      rw [Function.iterate_succ_apply']
      exact ⟨validDate_nextDate _ ih.1,
        by rw [toOrdinal_nextDate _ ih.1, ih.2]; omega⟩

theorem prevDate_spec (d : Date) (h : validDate d) (hy2 : 2 ≤ d.year) :
    validDate (prevDate d) ∧
      toOrdinal (prevDate d) + 1 = toOrdinal d := by
  obtain ⟨y, m, dd⟩ := d
  rw [validDate_mk] at h
  obtain ⟨h1, h2, h3, h4, h5⟩ := h
  have hy : 2 ≤ y := hy2
  by_cases hd : 1 < dd
  · simp only [prevDate, if_pos hd]
    refine ⟨validDate_mk.2 ⟨h1, h2, h3, by omega, by omega⟩, ?_⟩
    rw [toOrdinal_mk, toOrdinal_mk]
    omega
  · have hdd : dd = 1 := by omega
    subst hdd
    by_cases hm : 1 < m
    · simp only [prevDate, if_neg hd, if_pos hm]
      have hrec := dBM_succ y (m - 1) (by omega) (by omega)
      rw [show m - 1 + 1 = m by omega] at hrec
      refine ⟨validDate_mk.2 ⟨h1, by omega, by omega,
        one_le_daysInMonth y (m - 1) (by omega) (by omega),
        le_refl _⟩, ?_⟩
      rw [toOrdinal_mk, toOrdinal_mk]
      omega
    · have hm1 : m = 1 := by omega
      subst hm1
      simp only [prevDate, if_neg hd, if_neg hm]
      have hsucc := dBY_succ (y - 1) (by omega)
      rw [show y - 1 + 1 = y by omega] at hsucc
      refine ⟨validDate_mk.2 ⟨by omega, by norm_num, by norm_num,
        by norm_num, by simp [daysInMonth]⟩, ?_⟩
      rw [toOrdinal_mk, toOrdinal_mk]
      cases hl : isLeap (y - 1) <;>
        simp [daysBeforeMonth, hl] at hsucc ⊢ <;> omega

/-- With fuel equal to the ordinal distance of the endpoints, the
date-listing loop enumerates exactly the day successors of `cur`. -/
theorem dateList_eq (endD : Date) (hend : validDate endD) :
    ∀ (f : Nat) (cur : Date), validDate cur →
      toOrdinal endD + 1 - toOrdinal cur = f →
      dateList endD f cur =
        (List.range f).map (fun i => strftime (nextDate^[i] cur)) := by
  intro f
  induction f with
  | zero => intro cur _ _; simp [dateList]
  | succ n ih =>
      intro cur hc hf
      have hc1 : 1 ≤ toOrdinal cur := by
        obtain ⟨y, m, dd⟩ := cur
        have := (validDate_mk.1 hc).2.2.2.1
        rw [toOrdinal_mk]
        omega
      have hle : toOrdinal cur ≤ toOrdinal endD := by omega
      have hguard : dateLe cur endD = true :=
        (dateLe_iff_toOrdinal hc hend).2 hle
      have hnext := toOrdinal_nextDate cur hc
      have hv := validDate_nextDate cur hc
      rw [show dateList endD (n + 1) cur =
        (if dateLe cur endD then
          strftime cur :: dateList endD n (nextDate cur) else []) from
        rfl, if_pos hguard, ih (nextDate cur) hv (by omega),
        List.range_succ_eq_map]
      simp only [List.map_cons, Function.iterate_zero_apply,
        List.map_map]
      exact congrArg (List.cons (strftime cur))
        (List.map_congr_left (fun i _ => by
          simp [Function.iterate_succ_apply]))

/-- C5.  Calendar boundaries and contents of `get_year_dates`:
`rangeStart` is October 1 of `year - 1`; `rangeEnd` is December 31 of
`year` for a non-current year and yesterday (`today` minus one day) for
the current year; the returned list is exactly every calendar date from
`rangeStart` to `rangeEnd` inclusive, in strictly ascending order, each
formatted `YYYY-MM-DD` by `strftime`; and for the current year today's
date is never included. -/
theorem claim_C5_calendar_boundaries (today : Date) (year : Nat)
    (startD endD : Date) (count : Nat)
    (htoday : validDate today) (hy : 2 ≤ year)
    (hstart : startD = ⟨year - 1, 10, 1⟩)
    (hend : endD = if year = today.year then prevDate today
      else ⟨year, 12, 31⟩)
    (hcount : count = toOrdinal endD + 1 - toOrdinal startD) :
    (getYearDates today year).rangeStart = strftime startD ∧
    (getYearDates today year).rangeEnd = strftime endD ∧
    (getYearDates today year).dates = (List.range count).map
      (fun i => strftime (nextDate^[i] startD)) ∧
    (∀ d : Date, validDate d →
      ((dateLe startD d = true ∧ dateLe d endD = true) ↔
        ∃ i, i < count ∧ d = nextDate^[i] startD)) ∧
    (∀ i j : Nat, i < j → j < count →
      toOrdinal (nextDate^[i] startD) <
        toOrdinal (nextDate^[j] startD)) ∧
    (year = today.year → ∀ i, i < count →
      nextDate^[i] startD ≠ today) := by
  subst hcount
  subst hstart
  subst hend
  have hvs : validDate (⟨year - 1, 10, 1⟩ : Date) :=
    validDate_mk.2 ⟨by omega, by norm_num, by norm_num, by norm_num,
      by simp [daysInMonth]⟩
  have hve : validDate (if year = today.year then prevDate today
      else (⟨year, 12, 31⟩ : Date)) := by
    by_cases hcy : year = today.year
    · rw [if_pos hcy]
      exact (prevDate_spec today htoday (by omega)).1
    · rw [if_neg hcy]
      exact validDate_mk.2 ⟨by omega, by norm_num, by norm_num,
        by norm_num, by simp [daysInMonth]⟩
  refine ⟨rfl, rfl, ?_, ?_, ?_, ?_⟩
  · exact dateList_eq _ hve _ _ hvs rfl
  · intro d hd
    constructor
    · rintro ⟨h1, h2⟩
      rw [dateLe_iff_toOrdinal hvs hd] at h1
      rw [dateLe_iff_toOrdinal hd hve] at h2
      refine ⟨toOrdinal d - toOrdinal (⟨year - 1, 10, 1⟩ : Date),
        by omega, ?_⟩
      obtain ⟨hvi, hoi⟩ := iterate_nextDate _ hvs
        (toOrdinal d - toOrdinal (⟨year - 1, 10, 1⟩ : Date))
      exact toOrdinal_inj hd hvi (by omega)
    · rintro ⟨i, hi, rfl⟩
      obtain ⟨hvi, hoi⟩ := iterate_nextDate _ hvs i
      constructor
      · rw [dateLe_iff_toOrdinal hvs hvi]
        omega
      · rw [dateLe_iff_toOrdinal hvi hve]
        omega
  · intro i j hij hj
    obtain ⟨_, hoi⟩ := iterate_nextDate _ hvs i
    obtain ⟨_, hoj⟩ := iterate_nextDate _ hvs j
    omega
  · intro hcy i hi heq
    obtain ⟨hvp, hop⟩ := prevDate_spec today htoday (by omega)
    obtain ⟨hvi, hoi⟩ := iterate_nextDate _ hvs i
    rw [if_pos hcy] at hi
    have hords := congrArg toOrdinal heq
    rw [hoi] at hords
    omega

/-- Witness for C5 at `today = 2026-03-14`, `year = 2025` (a
non-current year): range 2024-10-01 .. 2025-12-31, 457 dates. -/
theorem claim_C5_witness :
    (getYearDates ⟨2026, 3, 14⟩ 2025).rangeStart =
      strftime ⟨2024, 10, 1⟩ ∧
    (getYearDates ⟨2026, 3, 14⟩ 2025).rangeEnd =
      strftime ⟨2025, 12, 31⟩ ∧
    (getYearDates ⟨2026, 3, 14⟩ 2025).dates = (List.range 457).map
      (fun i => strftime (nextDate^[i] ⟨2024, 10, 1⟩)) :=
  have h := claim_C5_calendar_boundaries ⟨2026, 3, 14⟩ 2025
    ⟨2024, 10, 1⟩ ⟨2025, 12, 31⟩ 457 (by decide) (by decide)
    (by decide) (by decide) (by decide)
  ⟨h.1, h.2.1, h.2.2.1⟩

example : trackingHeaders =
    ["date", "file_1", "file_2", "file_3", "file_4", "file_5", "file_6",
     "file_7", "file_8", "file_9", "file_10", "file_11"] := by decide

example : headerIndex trackingHeaders "date" = some 0 := by decide
example : headerIndex trackingHeaders "file_2" = some 2 := by decide
example : headerIndex trackingHeaders "file_12" = none := by decide

example :
    (manageTrackingPost ⟨trackingHeaders, []⟩ "2026-01-02"
      [("file_1", some "a.csv")]).1.rows =
    [[some "2026-01-02", some "a.csv"]] := by decide

example :
    (manageTrackingPost ⟨trackingHeaders, [[some "2026-01-02", some "x"]]⟩
      "2026-01-02" [("file_2", some "y")]).1.rows =
    [[some "2026-01-02", some "x", some "y"]] := by decide

end NseServer
